import Mathlib

/-
  Verification of util/extend_spells.py (Metamagic spell-variant generator).

  Strings are modelled as lists of characters; Python dicts (which preserve
  insertion order and overwrite in place) are modelled as association lists
  with an in-place update operation.  Fallible Python code (IndexError,
  KeyError) is modelled with Option: a none result stands for an uncaught
  exception.
-/

set_option autoImplicit false

namespace Metamagic

/-- Text is modelled as a list of characters. -/
abbrev Str := List Char

/-- Conversion from Lean string literals to the model's string type. -/
def str (s : String) : Str := s.toList

/-- Lookup in an insertion-ordered dictionary (first, hence only, binding). -/
def alookup {β : Type} (l : List (Str × β)) (k : Str) : Option β :=
  match l with
  | [] => none
  | (k', v) :: t => if k' = k then some v else alookup t k

/-- Python dict assignment: overwrite in place if the key exists, else append. -/
def upd {β : Type} (l : List (Str × β)) (k : Str) (v : β) : List (Str × β) :=
  match l with
  | [] => [(k, v)]
  | (k', v') :: t => if k' = k then (k, v) :: t else (k', v') :: upd t k v

/-- Python del d[k]: remove the binding of k (dicts bind a key once). -/
def aerase {β : Type} (l : List (Str × β)) (k : Str) : List (Str × β) :=
  match l with
  | [] => []
  | (k', v') :: t => if k' = k then t else (k', v') :: aerase t k

/-- Python d.update(other): assign every binding of other into d, in order. -/
def dictUpdate {β : Type} (l other : List (Str × β)) : List (Str × β) :=
  other.foldl (fun d kv => upd d kv.1 kv.2) l

/-- Python sep.join(parts): empty for no parts, otherwise parts with sep between. -/
def interc (sep : Str) : List Str → Str
  | [] => []
  | [x] => x
  | x :: y :: t => x ++ sep ++ interc sep (y :: t)

/-- Python s.find(sub): index of the leftmost occurrence of sub in s, if any. -/
def strFind (sub : Str) (s : Str) : Option Nat :=
  match s with
  | [] => if sub.isPrefixOf ([] : Str) then some 0 else none
  | c :: t => if sub.isPrefixOf (c :: t) then some 0 else (strFind sub t).map (· + 1)

/-- Python s.find(sub) > -1: sub occurs somewhere in s. -/
def hasSubstr (sub : Str) (s : Str) : Bool :=
  (strFind sub s).isSome

/-- Fuel-driven worker for pySplit; fuel at least the length of s suffices. -/
def pySplitAux (sep : Str) : Nat → Str → List Str
  | 0, s => [s]
  | n + 1, s =>
    match strFind sep s with
    | none => [s]
    | some i => s.take i :: pySplitAux sep n (s.drop (i + sep.length))

/-- Python s.split(sep) for a nonempty separator: cut at every occurrence. -/
def pySplit (sep : Str) (s : Str) : List Str :=
  if sep.length = 0 then [s] else pySplitAux sep (s.length + 1) s

/-- Index of the rightmost occurrence of a character, if any. -/
def lastIdxOf (c : Char) : Str → Option Nat
  | [] => none
  | a :: t =>
    match lastIdxOf c t with
    | some j => some (j + 1)
    | none => if a = c then some 0 else none

/-- Largest p < n satisfying f, if any. -/
def largestBelow (f : Nat → Bool) : Nat → Option Nat
  | 0 => none
  | n + 1 => if f n then some n else largestBelow f n

/-
  The four header-line regexes of extend_spells.py, evaluated with Python
  re.match semantics (anchored at the start only, groups greedy, the dot not
  matching a newline).  For a pattern lit followed by a quoted group "(.+)",
  a match exists iff lit is a literal prefix of the line and the remainder
  holds a later double quote inside its newline-free initial segment; the
  greedy group then reaches to the last such quote.
-/

/-- Group value of re.match applied to a pattern of shape lit followed by a
    nonempty greedy quoted group; the empty string signals no match, exactly
    as the callers in extend_spells.py use it. -/
def matchGroup1 (lit line : Str) : Str :=
  if lit.isPrefixOf line then
    let r := (line.drop lit.length).takeWhile (fun c => c ≠ '\n')
    match lastIdxOf '"' r with
    | some j => if 1 ≤ j then r.take j else []
    | none => []
  else []

/-- Spell.get_spellname: group of matching the new-entry header pattern. -/
def get_spellname (line : Str) : Str := matchGroup1 (str "new entry \"") line

/-- Spell.get_entrytype: group of matching the type header pattern. -/
def get_entrytype (line : Str) : Str := matchGroup1 (str "type \"") line

/-- Spell.get_spellparent: group of matching the using header pattern. -/
def get_spellparent (line : Str) : Str := matchGroup1 (str "using \"") line

/-- Validity of a cut position p for the greedy key group of the data-line
    pattern: a quote-space-quote block starts at p (with a nonempty key
    before it) and a closing quote follows later. -/
def dataValidAt (r : Str) (p : Nat) : Bool :=
  decide (1 ≤ p) && decide (r.get? p = some '"') && decide (r.get? (p + 1) = some ' ')
    && decide (r.get? (p + 2) = some '"') && (r.drop (p + 3)).contains '"'

/-- Spell.get_spelldata: the singleton dict produced by matching the pattern
    data "(.+)" "(.*)", or the empty dict when the line does not match.  The
    greedy key group takes the largest valid cut; the greedy value group then
    reaches to the last quote of the remainder. -/
def get_spelldata (line : Str) : List (Str × Str) :=
  if (str "data \"").isPrefixOf line then
    let r := (line.drop 6).takeWhile (fun c => c ≠ '\n')
    match largestBelow (dataValidAt r) r.length with
    | none => []
    | some p =>
      let rest := r.drop (p + 3)
      match lastIdxOf '"' rest with
      | none => []
      | some q => [(r.take p, rest.take q)]
  else []

/-- re.sub of the pattern ActionPoint optionally followed by Group, replaced
    by BonusActionPoint, as used in add_spell. -/
def pyReSubAP (s : Str) : Str :=
  match s with
  | [] => []
  | c :: t =>
    if (str "ActionPointGroup").isPrefixOf (c :: t) then
      str "BonusActionPoint" ++ pyReSubAP (t.drop 15)
    else if (str "ActionPoint").isPrefixOf (c :: t) then
      str "BonusActionPoint" ++ pyReSubAP (t.drop 10)
    else
      c :: pyReSubAP t
termination_by s.length
decreasing_by
  all_goals simp
  all_goals omega

/-
  The class-based model: Spell, Container, Library of extend_spells.py.
  Python field values are strings except for the ContainerSpells field that
  Container.__init__ sets to None, so data values are Option Str with none
  standing for Python None.
-/

/-- A Spell object: _name, _entrytype, _type (the singleton dict parsed from
    the third header line), _parent and _data. -/
structure Spell where
  name : Str
  entrytype : Str
  typ : List (Str × Str)
  parent : Str
  sdata : List (Str × Option Str)
deriving DecidableEq

/-- Rendering of a Python value inside an f-string: a string renders as
    itself, None renders as the word None. -/
def valStr : Option Str → Str
  | some s => s
  | none => str "None"

/-- Spell.clone: deep copies give an identical value in a pure model. -/
def Spell.clone (s : Spell) : Spell := s

/-- Spell.alter: self._data.update(spelldata). -/
def Spell.alter (s : Spell) (spelldata : List (Str × Option Str)) : Spell :=
  { s with sdata := dictUpdate s.sdata spelldata }

/-- Spell.quickened: clone renamed with the _Quickened suffix; no other field
    changes. -/
def Spell.quickened (s : Spell) : Spell :=
  { s.clone with name := s.name ++ str "_Quickened" }

/-- Spell.subtle: clone renamed with the _Subtle suffix; no other field
    changes. -/
def Spell.subtle (s : Spell) : Spell :=
  { s.clone with name := s.name ++ str "_Subtle" }

/-- A Container object: the Spell fields plus the _children list. -/
structure Container where
  name : Str
  entrytype : Str
  typ : List (Str × Str)
  parent : Str
  sdata : List (Str × Option Str)
  children : List Spell
deriving DecidableEq

/-- Container.__init__(spell): name with the _Metamagic suffix, entrytype,
    type and data copied from the source spell, empty children, and the
    ContainerSpells data key set to None. -/
def Container.ofSpell (s : Spell) : Container :=
  { name := s.name ++ str "_Metamagic"
    entrytype := s.entrytype
    typ := s.typ
    parent := []
    sdata := dictUpdate s.sdata [(str "ContainerSpells", none)]
    children := [] }

/-- Container.add: append the spell to _children; nothing else changes. -/
def Container.add (c : Container) (sp : Spell) : Container :=
  { c with children := c.children ++ [sp] }

/-- Spell.containerized(container): clone with SpellContainerID set to the
    container name. -/
def Spell.containerized (s : Spell) (c : Container) : Spell :=
  (s.clone).alter [(str "SpellContainerID", some c.name)]

/-- A Library value: the _indexed_spells dict from name to Spell.  The
    aliasing of the shared default dict of Library.__init__ is modelled
    separately below for the claim about default state. -/
abbrev Library := List (Str × Spell)

/-- Library.add: self._indexed_spells[spell.name] = spell. -/
def Library.add (lib : Library) (sp : Spell) : Library :=
  upd lib sp.name sp

/-- Library.create_metamagic: for each spell build a container, containerize,
    quicken and subtle the spell, add the three spells to the container, and
    add only the containerized spell to the new library (the other adds are
    commented out in the source). -/
def Library.create_metamagic (lib : Library) : Library :=
  lib.foldl
    (fun md kv =>
      let spell := kv.2
      let container := Container.ofSpell spell
      let spell_containerized := spell.containerized container
      let spell_quickened := spell.quickened
      let spell_subtle := spell.subtle
      let container := container.add spell
      let container := container.add spell_subtle
      let container := container.add spell_quickened
      let _ := container
      Library.add md spell_containerized)
    []

/-- Spell.load: the three header lines are popped unconditionally, then the
    next line is peeked for an optional using header (an IndexError when no
    line remains is modelled by none), the remaining lines are folded into
    _data, and finally _type is folded back into _data. -/
def Spell.load (lines : List Str) : Option Spell :=
  match lines with
  | l1 :: l2 :: l3 :: rest =>
    let nm := get_spellname l1
    let et := get_entrytype l2
    let ty := get_spelldata l3
    match rest with
    | [] => none
    | peekline :: rest2 =>
      let par := get_spellparent peekline
      let body := if par ≠ [] then rest2 else rest
      let d0 := body.foldl
        (fun d line => (get_spelldata line).foldl (fun d kv => upd d kv.1 (some kv.2)) d) []
      let d1 := ty.foldl (fun d kv => upd d kv.1 (some kv.2)) d0
      some { name := nm, entrytype := et, typ := ty, parent := par, sdata := d1 }
  | _ => none

/-- Library.load_spells: split the text on blank lines, skip blocks of fewer
    than three lines, load each remaining block and add it; a load failure
    aborts the whole call (the exception propagates). -/
def Library.load_spells (text : Str) : Option Library :=
  (pySplit (str "\n\n") text).foldl
    (fun acc block =>
      acc.bind (fun lib =>
        let lines := pySplit (str "\n") block
        if lines.length < 3 then some lib
        else (Spell.load lines).map (fun sp => Library.add lib sp)))
    (some [])

/-- A data body line as emitted by Spell.to_entry. -/
def dataLine (k : Str) (v : Option Str) : Str :=
  str "data \"" ++ k ++ str "\" \"" ++ valStr v ++ str "\""

/-- Spell.to_entry: emit the header (dropping the using line when the parent
    is empty), read _data at SpellType (a KeyError when absent is none),
    delete that key from _data, and emit the remaining data lines.  The
    returned spell is the mutated self. -/
def Spell.to_entry (s : Spell) : Option (Str × Spell) :=
  match alookup s.sdata (str "SpellType") with
  | none => none
  | some v0 =>
    let header := [str "new entry \"" ++ s.name ++ str "\"",
                   str "type \"" ++ s.entrytype ++ str "\"",
                   str "data \"SpellType\" \"" ++ valStr v0 ++ str "\"",
                   str "using \"" ++ s.parent ++ str "\""]
    let header := if s.parent = [] then header.dropLast else header
    let d := aerase s.sdata (str "SpellType")
    let lines := header ++ d.map (fun kv => dataLine kv.1 kv.2)
    some (interc (str "\n") lines, { s with sdata := d })

/-- Worker for Library.to_entries: serialize each record in order, keeping
    the mutated spells; the first KeyError aborts the whole call. -/
def to_entries_core : Library → Option (List Str × Library)
  | [] => some ([], [])
  | (n, sp) :: t =>
    match sp.to_entry with
    | none => none
    | some (e, sp') =>
      match to_entries_core t with
      | none => none
      | some (es, t') => some (e :: es, (n, sp') :: t')

/-- Library.to_entries: the entries joined by a blank line, together with the
    library as left mutated by the per-spell serialization. -/
def Library.to_entries (lib : Library) : Option (Str × Library) :=
  (to_entries_core lib).map (fun p => (interc (str "\n\n") p.1, p.2))

/-
  The dict-based model: create_spell, add_original, add_spell, add_subtle,
  add_container and add_meta_versions of extend_spells.py.  A spell there is
  a dict with a data sub-dict and optional type and using keys.
-/

/-- One value of the dict-based spell list: the data sub-dict plus the
    optional type and using entries that add_container writes. -/
structure SpellData where
  sdata : List (Str × Str)
  stype : Option Str
  susing : Option Str
deriving DecidableEq

/-- The dict-based spell list, from spell name to spell data. -/
abbrev MetaDict := List (Str × SpellData)

/-- create_spell: build the new name from the postfix, deep copy the spell
    data, point SpellContainerID at the container name, and return the name
    together with a singleton dict.  The customdata argument is accepted and
    ignored: the update that would apply it is commented out in the source. -/
def create_spell (spellname : Str) (spelldata : SpellData) (customdata : Option SpellData)
    (pfx : Str) (containerPfx : Str) : Str × MetaDict :=
  let _ := customdata
  let name := spellname ++ str "_" ++ pfx
  let d := { spelldata with
             sdata := upd spelldata.sdata (str "SpellContainerID")
                        (spellname ++ str "_" ++ containerPfx) }
  (name, [(name, d)])

/-- add_original: create the containerized original with the Original postfix
    and merge it into the library dict. -/
def add_original (library : MetaDict) (spellname : Str) (spelldata : SpellData) :
    Str × MetaDict :=
  let ns := create_spell spellname spelldata none (str "Original") (str "Metamagic")
  (ns.1, dictUpdate library ns.2)

/-- add_spell: read UseCosts (a KeyError when absent is none), rewrite its
    action-point tokens into customdata, and create the variant with the
    spell postfix; create_spell drops the customdata, so the stored data is
    the unmodified copy. -/
def add_spell (library : MetaDict) (spellname : Str) (spelldata : SpellData) :
    Option (Str × MetaDict) :=
  match alookup spelldata.sdata (str "UseCosts") with
  | none => none
  | some uc =>
    let usecost := pyReSubAP uc
    let customdata : SpellData :=
      { sdata := [(str "UseCosts", usecost), (str "RootSpellID", spellname)]
        stype := none, susing := none }
    let ns := create_spell spellname spelldata (some customdata) (str "spell") (str "Metamagic")
    some (ns.1, dictUpdate library ns.2)

/-- add_subtle: read SpellFlags (a KeyError when absent is none), drop the
    HasVerbalComponent token from its semicolon-separated items, point
    SpellContainerID at the container, and store under the _Subtle name.
    This function is never called by add_meta_versions. -/
def add_subtle (md : MetaDict) (spellname : Str) (spelldata : SpellData) :
    Option (Str × MetaDict) :=
  let subtle_name := spellname ++ str "_Subtle"
  match alookup spelldata.sdata (str "SpellFlags") with
  | none => none
  | some spellflags =>
    let items := pySplit (str ";") spellflags
    let filtered := items.filter (fun sf => sf ≠ str "HasVerbalComponent")
    let d1 := upd spelldata.sdata (str "SpellFlags") (interc (str ";") filtered)
    let d2 := upd d1 (str "SpellContainerID") (spellname ++ str "_Metamagic")
    some (subtle_name, upd md subtle_name { spelldata with sdata := d2 })

/-- add_container: return the dict unchanged when DisplayName or SpellFlags
    is missing; otherwise store the container record, with the marker flag
    appended and ContainerSpells joined from the child names. -/
def add_container (md : MetaDict) (spellname : Str) (spelldata : SpellData)
    (container_spells : List Str) : MetaDict :=
  let container_name := spellname ++ str "_Metamagic"
  match alookup spelldata.sdata (str "DisplayName") with
  | none => md
  | some displayname =>
    match alookup spelldata.sdata (str "SpellFlags") with
    | none => md
    | some flags =>
      let spellflags := pySplit (str ";") flags ++ [str "IsLinkedSpellContainer"]
      let container_data : SpellData :=
        { sdata := [(str "DisplayName", displayname ++ str " (Metamagic)"),
                    (str "SpellFlags", interc (str ";") spellflags),
                    (str "ContainerSpells", interc (str ";") container_spells)]
          stype := some (str "SpellData")
          susing := some spellname }
      upd md container_name container_data

/-- The body of the loop of add_meta_versions for one source spell: skip
    containers, add the containerized original, add the quickened variant
    when UseCosts has SpellSlot and lacks BonusAction (the subtle branch is
    commented out in the source), and add the container when more than one
    spell was produced. -/
def meta_step (md : MetaDict) (spellname : Str) (spelldata : SpellData) :
    Option MetaDict :=
  let usecost := (alookup spelldata.sdata (str "UseCosts")).getD []
  let spellflags := (alookup spelldata.sdata (str "SpellFlags")).getD []
  if hasSubstr (str "IsLinkedSpellContainer") spellflags then some md
  else
    let nm := add_original md spellname spelldata
    let container_spells := [nm.1]
    if hasSubstr (str "SpellSlot") usecost && !hasSubstr (str "BonusAction") usecost then
      match add_spell nm.2 spellname spelldata with
      | none => none
      | some nm2 =>
        let cs := container_spells ++ [nm2.1]
        some (if 1 < cs.length then add_container nm2.2 spellname spelldata cs else nm2.2)
    else
      some (if 1 < container_spells.length then
              add_container nm.2 spellname spelldata container_spells
            else nm.2)

/-- add_meta_versions: start from a copy of the input when copy_orig is set,
    else from an empty dict, and run the per-spell step over the input. -/
def add_meta_versions (d : MetaDict) (copy_orig : Bool) : Option MetaDict :=
  let md0 := if copy_orig then d else []
  d.foldl (fun acc kv => acc.bind (fun md => meta_step md kv.1 kv.2)) (some md0)

/-
  The default-argument model for Library.__init__.  In Python the default
  value of indexed_spells is one dict object created when the def statement
  runs; every Library() call binds _indexed_spells to that same object, so a
  reference model is needed: a library holds a reference that is either the
  shared default cell or an explicitly passed dict.
-/

/-- What a Library binds as its _indexed_spells: the shared default dict of
    the def statement, or an explicitly passed dict (by heap index). -/
inductive DictRef where
  | dflt : DictRef
  | explct : Nat → DictRef
deriving DecidableEq

/-- The mutable store: the shared default dict plus explicitly created
    dicts. -/
structure PyState where
  defaultDict : Library
  heap : List Library
deriving DecidableEq

/-- Library() with no argument: _indexed_spells is the shared default. -/
def Library.newDefault : DictRef := DictRef.dflt

/-- Library(d): _indexed_spells is the dict passed in. -/
def Library.newWith (i : Nat) : DictRef := DictRef.explct i

/-- Read the record dict a library reference denotes. -/
def readDict (st : PyState) : DictRef → Library
  | DictRef.dflt => st.defaultDict
  | DictRef.explct i => (st.heap.get? i).getD []

/-- Library.add through a reference: mutate the referenced dict in place. -/
def Library.addRef (st : PyState) (r : DictRef) (sp : Spell) : PyState :=
  match r with
  | DictRef.dflt => { st with defaultDict := upd st.defaultDict sp.name sp }
  | DictRef.explct i => { st with heap := st.heap.set i (upd (readDict st r) sp.name sp) }

/-
  Concrete records used by the evaluation theorems below.
-/

/-- A spell whose UseCosts has SpellSlot and lacks BonusAction. -/
def sdFireball : SpellData :=
  { sdata := [(str "UseCosts", str "ActionPoint:1,SpellSlot:3")], stype := none, susing := none }

/-- A spell that qualifies for no variant: UseCosts lacks SpellSlot and there
    are no spell flags. -/
def sdCure : SpellData :=
  { sdata := [(str "UseCosts", str "ActionPoint:1")], stype := none, susing := none }

/-- A spell meeting the subtle precondition: UseCosts has SpellSlot and the
    flags have HasVerbalComponent. -/
def sdVerbal : SpellData :=
  { sdata := [(str "UseCosts", str "SpellSlot:3"),
              (str "SpellFlags", str "HasVerbalComponent;HasSomaticComponent")]
    stype := none, susing := none }

/-- A class-based record flagged as a container. -/
def spFlagged : Spell :=
  { name := str "C", entrytype := str "SpellData", typ := []
    parent := [], sdata := [(str "SpellFlags", some (str "IsLinkedSpellContainer"))] }

/-- A minimal valid record: no parent and SpellType as the only field. -/
def spMin : Spell :=
  { name := str "A", entrytype := str "SpellData", typ := [(str "SpellType", str "T")]
    parent := [], sdata := [(str "SpellType", some (str "T"))] }

/-- A plain record used by the shared-default-dict theorem. -/
def spPlain : Spell :=
  { name := str "A", entrytype := str "SpellData", typ := [], parent := [], sdata := [] }

/-- A record with a parent and one body field besides SpellType. -/
def spFull : Spell :=
  { name := str "A", entrytype := str "SpellData", typ := []
    parent := str "P", sdata := [(str "SpellType", some (str "T")), (str "K", some (str "W"))] }

/-
  Shared lemmas about the dictionary operations.
-/

theorem alookup_upd_ne {β : Type} (l : List (Str × β)) (k k' : Str) (v : β) (h : k' ≠ k) :
    alookup (upd l k v) k' = alookup l k' := by
  induction l with
  | nil => simp [upd, alookup, Ne.symm h]
  | cons kv t ih =>
    by_cases hk : kv.1 = k
    · simp [upd, alookup, hk, Ne.symm h]
    · simp [upd, alookup, hk]
      by_cases hk' : kv.1 = k'
      · simp [hk']
      · simp [hk', ih]

theorem alookup_upd_self {β : Type} (l : List (Str × β)) (k : Str) (v : β) :
    alookup (upd l k v) k = some v := by
  induction l with
  | nil => simp [upd, alookup]
  | cons kv t ih =>
    by_cases hk : kv.1 = k
    · simp [upd, alookup, hk]
    · simp [upd, alookup, hk, ih]

theorem append_left_ne (n a b : Str) (h : a ≠ b) : n ++ a ≠ n ++ b := by
  intro hc
  exact h (List.append_cancel_left hc)

/-- Folding Container.add only grows the children list. -/
theorem foldl_container_add (c : Container) (l : List Spell) :
    (l.foldl Container.add c).sdata = c.sdata ∧
    (l.foldl Container.add c).entrytype = c.entrytype ∧
    (l.foldl Container.add c).name = c.name ∧
    (l.foldl Container.add c).children = c.children ++ l := by
  induction l generalizing c with
  | nil => simp
  | cons sp t ih =>
    simpa [Container.add] using ih { c with children := c.children ++ [sp] }

/-- C1: evaluation of the derivation engine on a spell whose UseCosts has
    SpellSlot and lacks BonusAction.  The engine stores the variant under the
    name Fireball_spell, not Fireball_Quickened, and its UseCosts is the
    unmodified source string, still holding ActionPoint and no BonusAction:
    add_spell computes the rewritten cost but create_spell discards the
    customdata carrying it. -/
theorem C1_quickened_eval :
    hasSubstr (str "SpellSlot") (str "ActionPoint:1,SpellSlot:3") = true ∧
    hasSubstr (str "BonusAction") (str "ActionPoint:1,SpellSlot:3") = false ∧
    (add_meta_versions [(str "Fireball", sdFireball)] false).map
      (fun md => (alookup md (str "Fireball_Quickened"),
                  (alookup md (str "Fireball_spell")).map
                    (fun sd => alookup sd.sdata (str "UseCosts")))) =
      some (none, some (some (str "ActionPoint:1,SpellSlot:3"))) ∧
    hasSubstr (str "ActionPoint") (str "ActionPoint:1,SpellSlot:3") = true := by
  decide

/-- C2: a spell failing both variant gates still contributes a record: the
    derivation engine unconditionally adds the containerized original
    Cure_Original, refuting the claim that nothing is added. -/
theorem C2_counterexample :
    hasSubstr (str "SpellSlot") (str "ActionPoint:1") = false ∧
    alookup sdCure.sdata (str "SpellFlags") = none ∧
    add_meta_versions [(str "Cure", sdCure)] false =
      some [(str "Cure_Original",
             { sdata := [(str "UseCosts", str "ActionPoint:1"),
                         (str "SpellContainerID", str "Cure_Metamagic")]
               stype := none, susing := none })] := by
  decide

/-- C2 amended: for a non-container spell failing both the quicken gate and
    the subtle gate, the output holds exactly one record, the containerized
    original, and in particular no container and no variant. -/
theorem C2_no_container_only_original (n : Str) (sd : SpellData)
    (hflag : hasSubstr (str "IsLinkedSpellContainer")
      ((alookup sd.sdata (str "SpellFlags")).getD []) = false)
    (hq : (hasSubstr (str "SpellSlot") ((alookup sd.sdata (str "UseCosts")).getD [])
           && !hasSubstr (str "BonusAction") ((alookup sd.sdata (str "UseCosts")).getD []))
          = false)
    (_hs : ¬(hasSubstr (str "SpellSlot") ((alookup sd.sdata (str "UseCosts")).getD []) = true ∧
            hasSubstr (str "HasVerbalComponent")
              ((alookup sd.sdata (str "SpellFlags")).getD []) = true)) :
    add_meta_versions [(n, sd)] false =
      some [(n ++ str "_Original",
             { sd with sdata := upd sd.sdata (str "SpellContainerID") (n ++ str "_Metamagic") })] := by
  have h1 : str "_" ++ str "Original" = str "_Original" := by decide
  have h2 : str "_" ++ str "Metamagic" = str "_Metamagic" := by decide
  have hcond : ¬(hasSubstr (str "SpellSlot") ((alookup sd.sdata (str "UseCosts")).getD []) = true ∧
      hasSubstr (str "BonusAction") ((alookup sd.sdata (str "UseCosts")).getD []) = false) := by
    rintro ⟨ha, hb⟩
    rw [ha, hb] at hq
    simp at hq
  simp [add_meta_versions, meta_step, hflag, hcond, add_original, create_spell, dictUpdate, upd,
        h1, h2]

/-- C2 witness: the amended statement evaluated on the concrete spell Cure. -/
theorem C2_witness :
    add_meta_versions [(str "Cure", sdCure)] false =
      some [(str "Cure" ++ str "_Original",
             { sdCure with sdata :=
                 (upd sdCure.sdata (str "SpellContainerID") (str "Cure" ++ str "_Metamagic")) })] :=
  C2_no_container_only_original (str "Cure") sdCure (by decide) (by decide) (by decide)

/-- C3: after adding one child to a fresh container, ContainerSpells is still
    the Python None set at construction, not the join of the child names, so
    the field and the children list have drifted apart. -/
theorem C3_counterexample :
    alookup (Container.add (Container.ofSpell spPlain) spPlain).sdata
        (str "ContainerSpells") = some none ∧
    (Container.add (Container.ofSpell spPlain) spPlain).children.map Spell.name = [str "A"] ∧
    alookup (Container.add (Container.ofSpell spPlain) spPlain).sdata (str "ContainerSpells") ≠
      some (some (interc (str ";")
        ((Container.add (Container.ofSpell spPlain) spPlain).children.map Spell.name))) := by
  decide

/-- C3 amended: Container.add only appends to the children list; the data
    dict, and with it the ContainerSpells entry set to None at construction,
    is never recomputed, for any sequence of adds. -/
theorem C3_container_drift (s : Spell) (l : List Spell) :
    (l.foldl Container.add (Container.ofSpell s)).sdata =
      dictUpdate s.sdata [(str "ContainerSpells", none)] ∧
    alookup (l.foldl Container.add (Container.ofSpell s)).sdata (str "ContainerSpells") =
      some none ∧
    (l.foldl Container.add (Container.ofSpell s)).children = l := by
  have h := foldl_container_add (Container.ofSpell s) l
  refine ⟨h.1, ?_, by simpa [Container.ofSpell] using h.2.2.2⟩
  rw [h.1]
  simpa [Container.ofSpell, dictUpdate] using
    alookup_upd_self s.sdata (str "ContainerSpells") none

/-- C5: Spell.load on a block of exactly three lines always hits the
    unguarded peek at the fourth line, whatever the lines hold, and the
    shortest well-formed block is therefore never parsed: the whole
    load_spells call fails. -/
theorem C5_short_block_index_error :
    (∀ l1 l2 l3 : Str, Spell.load [l1, l2, l3] = none) ∧
    Library.load_spells
      (str "new entry \"A\"\ntype \"SpellData\"\ndata \"SpellType\" \"T\"") = none := by
  exact ⟨fun l1 l2 l3 => rfl, by decide⟩

/-- C6: a block whose type line carries StatusData is not skipped: the
    parser stores the record with entrytype StatusData in the library,
    refuting the claim that non-SpellData blocks produce no record. -/
theorem C6_counterexample :
    Library.load_spells
      (str "new entry \"A\"\ntype \"StatusData\"\ndata \"SpellType\" \"T\"\nusing \"B\"") =
      some [(str "A",
             { name := str "A", entrytype := str "StatusData"
               typ := [(str "SpellType", str "T")], parent := str "B"
               sdata := [(str "SpellType", some (str "T"))] })] := by
  decide

/-- C7: the class-based derivation engine does not skip records flagged
    IsLinkedSpellContainer: create_metamagic still emits its containerized
    record for such a spell, so the record contributes to the output. -/
theorem C7_counterexample :
    hasSubstr (str "IsLinkedSpellContainer")
      (valStr ((alookup spFlagged.sdata (str "SpellFlags")).getD none)) = true ∧
    Library.create_metamagic [(str "C", spFlagged)] =
      [(str "C",
        { name := str "C", entrytype := str "SpellData", typ := [], parent := []
          sdata := [(str "SpellFlags", some (str "IsLinkedSpellContainer")),
                    (str "SpellContainerID", some (str "C_Metamagic"))] })] := by
  decide

/-- C7 amended: the dict-based derivation engine add_meta_versions does skip
    container-flagged records: its per-spell step leaves the output dict
    untouched whenever SpellFlags holds IsLinkedSpellContainer. -/
theorem C7_meta_skip (md : MetaDict) (n : Str) (sd : SpellData)
    (h : hasSubstr (str "IsLinkedSpellContainer")
      ((alookup sd.sdata (str "SpellFlags")).getD []) = true) :
    meta_step md n sd = some md := by
  simp [meta_step, h]

/-- C7 witness: the skip evaluated on a concrete container-flagged record. -/
theorem C7_witness :
    meta_step [] (str "C")
      { sdata := [(str "SpellFlags", str "IsLinkedSpellContainer")]
        stype := none, susing := none } = some [] :=
  C7_meta_skip [] (str "C") _ (by decide)

/-- C8: a spell meeting the subtle precondition (UseCosts has SpellSlot,
    SpellFlags has HasVerbalComponent) yields no X_Subtle record: the subtle
    branch of the engine is commented out. -/
theorem C8_counterexample :
    hasSubstr (str "SpellSlot") (str "SpellSlot:3") = true ∧
    hasSubstr (str "HasVerbalComponent") (str "HasVerbalComponent;HasSomaticComponent") = true ∧
    (add_meta_versions [(str "X", sdVerbal)] false).map
      (fun md => alookup md (str "X_Subtle")) = some none := by
  decide

/-- Reading any key other than the container name is unchanged by
    add_container. -/
theorem alookup_add_container_ne (md : MetaDict) (n : Str) (sd : SpellData)
    (cs : List Str) (k : Str) (h : k ≠ n ++ str "_Metamagic") :
    alookup (add_container md n sd cs) k = alookup md k := by
  unfold add_container
  cases alookup sd.sdata (str "DisplayName") with
  | none => rfl
  | some dn =>
    cases alookup sd.sdata (str "SpellFlags") with
    | none => rfl
    | some fl => exact alookup_upd_ne md (n ++ str "_Metamagic") k _ h

/-- C8 amended: the derivation engine produces no subtle variant for any
    source spell whatsoever: the output dict never gains a record under the
    name with the _Subtle suffix. -/
theorem C8_no_subtle (n : Str) (sd : SpellData) :
    ∃ md, add_meta_versions [(n, sd)] false = some md ∧
      alookup md (n ++ str "_Subtle") = none := by
  have hOrig : n ++ str "_Subtle" ≠ n ++ (str "_" ++ str "Original") :=
    append_left_ne n _ _ (by decide)
  have hSpell : n ++ str "_Subtle" ≠ n ++ (str "_" ++ str "spell") :=
    append_left_ne n _ _ (by decide)
  have hMeta : n ++ str "_Subtle" ≠ n ++ str "_Metamagic" :=
    append_left_ne n _ _ (by decide)
  have hams : add_meta_versions [(n, sd)] false = meta_step [] n sd := by
    simp [add_meta_versions]
  by_cases hflag : hasSubstr (str "IsLinkedSpellContainer")
      ((alookup sd.sdata (str "SpellFlags")).getD []) = true
  · exact ⟨[], by rw [hams]; simp [meta_step, hflag], by simp [alookup]⟩
  · rw [Bool.not_eq_true] at hflag
    by_cases hq : (hasSubstr (str "SpellSlot") ((alookup sd.sdata (str "UseCosts")).getD [])
        && !hasSubstr (str "BonusAction") ((alookup sd.sdata (str "UseCosts")).getD [])) = true
    · rw [Bool.and_eq_true, Bool.not_eq_true'] at hq
      obtain ⟨ha, hb⟩ := hq
      obtain ⟨uc, huc⟩ : ∃ uc, alookup sd.sdata (str "UseCosts") = some uc := by
        cases h : alookup sd.sdata (str "UseCosts") with
        | none => rw [h] at ha; simp [hasSubstr, strFind, str, List.isPrefixOf] at ha
        | some uc => exact ⟨uc, rfl⟩
      have ha' : hasSubstr (str "SpellSlot") uc = true := by simpa [huc] using ha
      have hb' : hasSubstr (str "BonusAction") uc = false := by simpa [huc] using hb
      have hos : ¬(str "Original" = str "spell") := by decide
      have l1 : ¬(str "_" ++ str "Original" = str "_Subtle") := by decide
      refine ⟨add_container
          (upd [(n ++ (str "_" ++ str "Original"),
                 { sd with sdata := (upd sd.sdata (str "SpellContainerID")
                     (n ++ (str "_" ++ str "Metamagic"))) })]
             (n ++ (str "_" ++ str "spell"))
             { sd with sdata := (upd sd.sdata (str "SpellContainerID")
                 (n ++ (str "_" ++ str "Metamagic"))) })
          n sd [n ++ (str "_" ++ str "Original"), n ++ (str "_" ++ str "spell")], ?_, ?_⟩
      · rw [hams]
        simp [meta_step, hflag, ha, hb, ha', hb', add_original, add_spell, create_spell, huc,
              dictUpdate, upd, hos]
      · rw [alookup_add_container_ne _ _ _ _ _ hMeta,
            alookup_upd_ne _ _ _ _ hSpell]
        simp [alookup, hOrig, l1]
    · rw [Bool.not_eq_true] at hq
      have hcond : ¬(hasSubstr (str "SpellSlot") ((alookup sd.sdata (str "UseCosts")).getD [])
            = true ∧
          hasSubstr (str "BonusAction") ((alookup sd.sdata (str "UseCosts")).getD [])
            = false) := by
        rintro ⟨ha, hb⟩
        rw [ha, hb] at hq
        simp at hq
      have l1 : ¬(str "_" ++ str "Original" = str "_Subtle") := by decide
      refine ⟨[(n ++ (str "_" ++ str "Original"),
               { sd with sdata := (upd sd.sdata (str "SpellContainerID")
                   (n ++ (str "_" ++ str "Metamagic"))) })], ?_, ?_⟩
      · rw [hams]
        simp [meta_step, hflag, hcond, add_original, create_spell, dictUpdate, upd]
      · simp [alookup, hOrig, l1]

/-
  Inversion of pySplit on joined parts, used by the round-trip theorem: a
  split on a separator that occurs in none of the parts recovers the parts
  of the join.
-/

theorem ipo_append (p r : Str) : p.isPrefixOf (p ++ r) = true := by
  induction p with
  | nil => simp
  | cons c t ih => simp [List.isPrefixOf_cons₂, ih]

theorem ipo_length {p s : Str} (h : p.isPrefixOf s = true) : p.length ≤ s.length := by
  induction p generalizing s with
  | nil => simp
  | cons c t ih =>
    cases s with
    | nil => simp at h
    | cons b bs =>
      rw [List.isPrefixOf_cons₂, Bool.and_eq_true] at h
      simpa using ih h.2

theorem strFind_some_elim {sub s : Str} {i : Nat} (h : strFind sub s = some i) :
    sub.isPrefixOf (s.drop i) = true := by
  induction s generalizing i with
  | nil =>
    unfold strFind at h
    by_cases hp : sub.isPrefixOf ([] : Str) = true
    · simp [hp] at h
      simpa [← h] using hp
    · simp [hp] at h
  | cons c t ih =>
    unfold strFind at h
    by_cases hp : sub.isPrefixOf (c :: t) = true
    · simp [hp] at h
      simpa [← h] using hp
    · simp [hp] at h
      obtain ⟨j, hj, hji⟩ := h
      subst hji
      simpa using ih hj

theorem strFind_bound {sub s : Str} {i : Nat} (hsub : sub ≠ []) (h : strFind sub s = some i) :
    i + sub.length ≤ s.length := by
  have hp := strFind_some_elim h
  have hlen := ipo_length hp
  rw [List.length_drop] at hlen
  rcases Nat.lt_or_ge s.length i with hi | hi
  · rw [List.drop_eq_nil_of_le (Nat.le_of_lt hi)] at hp
    cases sub with
    | nil => exact absurd rfl hsub
    | cons a as => simp at hp
  · omega

theorem strFind_none_intro {sub s : Str} (h : ∀ i, sub.isPrefixOf (s.drop i) = false) :
    strFind sub s = none := by
  induction s with
  | nil =>
    have h0 := h 0
    simp only [List.drop_nil] at h0
    simp [strFind, h0]
  | cons c t ih =>
    have h0 := h 0
    simp only [List.drop_zero] at h0
    have ht : strFind sub t = none := ih (fun i => by simpa using h (i + 1))
    simp [strFind, h0, ht]

theorem strFind_some_intro {sub s : Str} {i : Nat}
    (hp : sub.isPrefixOf (s.drop i) = true)
    (hmin : ∀ j, j < i → sub.isPrefixOf (s.drop j) = false) :
    strFind sub s = some i := by
  induction s generalizing i with
  | nil =>
    cases i with
    | zero =>
      simp only [List.drop_nil] at hp
      simp [strFind, hp]
    | succ j =>
      have := hmin 0 (Nat.succ_pos j)
      simp only [List.drop_nil] at this hp
      rw [this] at hp
      cases hp
  | cons c t ih =>
    cases i with
    | zero =>
      simp only [List.drop_zero] at hp
      simp [strFind, hp]
    | succ j =>
      have h0 := hmin 0 (Nat.succ_pos j)
      simp only [List.drop_zero] at h0
      have ht : strFind sub t = some j :=
        ih (by simpa using hp) (fun m hm => by simpa using hmin (m + 1) (by omega))
      simp [strFind, h0, ht]

theorem pySplitAux_irrel (sep : Str) (hsep : sep ≠ []) :
    ∀ n m s, s.length < n → s.length < m → pySplitAux sep n s = pySplitAux sep m s := by
  intro n
  induction n with
  | zero => intro m s hn hm; omega
  | succ n ih =>
    intro m s hn hm
    cases m with
    | zero => omega
    | succ m =>
      unfold pySplitAux
      cases hf : strFind sep s with
      | none => rfl
      | some i =>
        have hb := strFind_bound hsep hf
        have h1 : 1 ≤ sep.length := by
          cases sep with
          | nil => exact absurd rfl hsep
          | cons a as => simp
        have hlen : (s.drop (i + sep.length)).length < n := by
          rw [List.length_drop]; omega
        have hlen' : (s.drop (i + sep.length)).length < m := by
          rw [List.length_drop]; omega
        show s.take i :: pySplitAux sep n (s.drop (i + sep.length)) =
          s.take i :: pySplitAux sep m (s.drop (i + sep.length))
        rw [ih m (s.drop (i + sep.length)) hlen hlen']

theorem pySplit_eq (sep s : Str) (hsep : sep ≠ []) :
    pySplit sep s =
      match strFind sep s with
      | none => [s]
      | some i => s.take i :: pySplit sep (s.drop (i + sep.length)) := by
  have hlen : sep.length ≠ 0 := by
    cases sep with
    | nil => exact absurd rfl hsep
    | cons a as => simp
  cases hf : strFind sep s with
  | none =>
    show pySplit sep s = [s]
    unfold pySplit
    rw [if_neg hlen]
    unfold pySplitAux
    rw [hf]
  | some i =>
    have hb := strFind_bound hsep hf
    have h1 : 1 ≤ sep.length := by omega
    show pySplit sep s = s.take i :: pySplit sep (s.drop (i + sep.length))
    unfold pySplit
    rw [if_neg hlen, if_neg hlen]
    conv_lhs => rw [pySplitAux]
    rw [hf]
    show s.take i :: pySplitAux sep s.length (s.drop (i + sep.length)) = _
    refine congrArg (s.take i :: ·) ?_
    exact pySplitAux_irrel sep hsep (s.length) ((s.drop (i + sep.length)).length + 1)
      (s.drop (i + sep.length)) (by rw [List.length_drop]; omega) (Nat.lt_succ_self _)

/-- No occurrence of sep starts strictly inside p, whatever follows p. -/
def okPart (sep p : Str) : Prop :=
  ∀ j, j < p.length → ∀ r, sep.isPrefixOf (p.drop j ++ r) = false

theorem strFind_none_of_ok (sep p : Str) (hsep : sep ≠ []) (h : okPart sep p) :
    strFind sep p = none := by
  apply strFind_none_intro
  intro i
  rcases Nat.lt_or_ge i p.length with hi | hi
  · simpa using h i hi []
  · rw [List.drop_eq_nil_of_le hi]
    cases sep with
    | nil => exact absurd rfl hsep
    | cons a as => simp

theorem strFind_append_sep (sep p r : Str) (_hsep : sep ≠ []) (h : okPart sep p) :
    strFind sep (p ++ (sep ++ r)) = some p.length := by
  apply strFind_some_intro
  · rw [List.drop_left]
    exact ipo_append sep r
  · intro j hj
    rw [List.drop_append_of_le_length (Nat.le_of_lt hj)]
    exact h j hj (sep ++ r)

theorem pySplit_interc (sep : Str) (hsep : sep ≠ []) :
    ∀ parts : List Str, parts ≠ [] → (∀ p ∈ parts, okPart sep p) →
      pySplit sep (interc sep parts) = parts := by
  intro parts
  induction parts with
  | nil => intro h; exact absurd rfl h
  | cons x t ih =>
    intro hne hok
    cases t with
    | nil =>
      rw [interc, pySplit_eq sep x hsep,
          strFind_none_of_ok sep x hsep (hok x (by simp))]
    | cons y t2 =>
      have hx := hok x (by simp)
      have e1 : interc sep (x :: y :: t2) = x ++ (sep ++ interc sep (y :: t2)) := by
        rw [interc, List.append_assoc]
      rw [e1, pySplit_eq sep _ hsep,
          strFind_append_sep sep x (interc sep (y :: t2)) hsep hx]
      show (x ++ (sep ++ interc sep (y :: t2))).take x.length ::
          pySplit sep ((x ++ (sep ++ interc sep (y :: t2))).drop (x.length + sep.length)) =
          x :: y :: t2
      rw [List.take_left, ← List.append_assoc,
          List.drop_left' (by rw [List.length_append]),
          ih (by simp) (fun p hp => hok p (by simp [hp]))]

/-- A separator whose first character avoids p starts nowhere inside p. -/
theorem okPart_of_head_not_mem (c : Char) (cs : Str) (p : Str) (h : c ∉ p) :
    okPart (c :: cs) p := by
  intro j hj r
  cases hd : p.drop j with
  | nil =>
    have := congrArg List.length hd
    rw [List.length_drop] at this
    simp at this
    omega
  | cons b bs =>
    have hb : b ∈ p := List.mem_of_mem_drop (by rw [hd]; simp)
    have hbc : (c == b) = false := by
      simp only [beq_eq_false_iff_ne, ne_eq]
      intro he
      exact h (he ▸ hb)
    simp [List.isPrefixOf_cons₂, hbc]

/-- The join by newline of a nonempty list of lines, exposed as the first
    line followed by a remainder. -/
theorem interc_nl_cons (l2 : Str) (t : List Str) :
    ∃ cs, interc (str "\n") (l2 :: t) = l2 ++ cs := by
  cases t with
  | nil => exact ⟨[], by simp [interc]⟩
  | cons y t2 => exact ⟨str "\n" ++ interc (str "\n") (y :: t2), by rw [interc, List.append_assoc]⟩

/-- A newline join of nonempty newline-free lines has no blank-line
    separator starting anywhere strictly inside it. -/
theorem okPart_nn_of_lines (lines : List Str) :
    lines ≠ [] → (∀ l ∈ lines, l ≠ [] ∧ '\n' ∉ l) →
    okPart (str "\n\n") (interc (str "\n") lines) := by
  induction lines with
  | nil => intro h; exact absurd rfl h
  | cons l t ih =>
    intro _ h
    obtain ⟨hl, hnl⟩ := h l (by simp)
    cases t with
    | nil =>
      rw [interc]
      exact okPart_of_head_not_mem '\n' (str "\n") l hnl
    | cons l2 t2 =>
      have e1 : interc (str "\n") (l :: l2 :: t2) =
          l ++ ('\n' :: interc (str "\n") (l2 :: t2)) := by
        rw [interc, List.append_assoc]; rfl
      rw [e1]
      set e' := interc (str "\n") (l2 :: t2) with he'
      have hok' : okPart (str "\n\n") e' := ih (by simp) (fun p hp => h p (by simp [hp]))
      obtain ⟨hl2, hnl2⟩ := h l2 (by simp)
      obtain ⟨cs, hcs⟩ := interc_nl_cons l2 t2
      intro j hj r
      rcases Nat.lt_or_ge j l.length with hjl | hjl
      · rw [List.drop_append_of_le_length (Nat.le_of_lt hjl)]
        cases hd : l.drop j with
        | nil =>
          have := congrArg List.length hd
          rw [List.length_drop] at this
          simp at this
          omega
        | cons b bs =>
          have hb : b ∈ l := List.mem_of_mem_drop (by rw [hd]; simp)
          have hbc : ('\n' == b) = false := by
            simp only [beq_eq_false_iff_ne, ne_eq]
            intro he
            exact hnl (he ▸ hb)
          have hsep : str "\n\n" = '\n' :: ['\n'] := rfl
          simp [hsep, List.isPrefixOf_cons₂, hbc]
      · rcases Nat.eq_or_lt_of_le hjl with hje | hjl'
        · rw [← hje, List.drop_left]
          cases hb2 : l2 with
          | nil => exact absurd hb2 hl2
          | cons b bs =>
            have hbc : ('\n' == b) = false := by
              simp only [beq_eq_false_iff_ne, ne_eq]
              intro he
              exact hnl2 (by rw [hb2]; exact he ▸ List.mem_cons_self b bs)
            have hsep : str "\n\n" = '\n' :: ['\n'] := rfl
            rw [← he'] at hcs
            rw [hcs, hb2]
            simp [hsep, List.isPrefixOf_cons₂, hbc]
        · obtain ⟨m, hm⟩ : ∃ m, j = l.length + (m + 1) := by
            refine ⟨j - l.length - 1, ?_⟩
            omega
          rw [hm, ← List.drop_drop, List.drop_left]
          show List.isPrefixOf (str "\n\n") (e'.drop m ++ r) = false
          apply hok' m ?_ r
          rw [hm] at hj
          rw [List.length_append] at hj
          simp at hj
          omega

theorem alookup_eq_none_of_not_mem {β : Type} (l : List (Str × β)) (k : Str)
    (h : k ∉ l.map Prod.fst) : alookup l k = none := by
  induction l with
  | nil => rfl
  | cons kv t ih =>
    simp only [List.map_cons, List.mem_cons] at h
    push_neg at h
    simp [alookup, Ne.symm h.1, ih h.2]

theorem alookup_aerase_self {β : Type} (l : List (Str × β)) (k : Str)
    (h : (l.map Prod.fst).Nodup) : alookup (aerase l k) k = none := by
  induction l with
  | nil => rfl
  | cons kv t ih =>
    simp only [List.map_cons, List.nodup_cons] at h
    by_cases hk : kv.1 = k
    · subst hk
      simpa [aerase] using alookup_eq_none_of_not_mem t kv.1 h.1
    · simp [aerase, hk, alookup, ih h.2]

theorem alookup_mem {β : Type} {l : List (Str × β)} {k : Str} {v : β}
    (h : alookup l k = some v) : (k, v) ∈ l := by
  induction l with
  | nil => simp [alookup] at h
  | cons kv t ih =>
    by_cases hk : kv.1 = k
    · rw [alookup, if_pos hk] at h
      cases h
      subst hk
      simp
    · rw [alookup, if_neg hk] at h
      exact List.mem_cons_of_mem kv (ih h)

theorem alookup_append {β : Type} (a b : List (Str × β)) (k : Str) :
    alookup (a ++ b) k =
      match alookup a k with
      | some v => some v
      | none => alookup b k := by
  induction a with
  | nil => simp [alookup]
  | cons kv t ih =>
    by_cases hk : kv.1 = k
    · simp [alookup, hk]
    · simp [alookup, hk, ih]

theorem alookup_aerase_ne {β : Type} (l : List (Str × β)) (k0 k : Str) (h : k ≠ k0) :
    alookup (aerase l k0) k = alookup l k := by
  induction l with
  | nil => rfl
  | cons kv t ih =>
    by_cases hk : kv.1 = k0
    · rw [aerase, if_pos hk, alookup, if_neg]
      rw [hk]
      exact fun he => h he.symm
    · rw [aerase, if_neg hk]
      by_cases hk' : kv.1 = k
      · rw [alookup, if_pos hk', alookup, if_pos hk']
      · rw [alookup, if_neg hk', alookup, if_neg hk', ih]

theorem aerase_map_fst_sublist {β : Type} (l : List (Str × β)) (k : Str) :
    ((aerase l k).map Prod.fst).Sublist (l.map Prod.fst) := by
  induction l with
  | nil => simp [aerase]
  | cons kv t ih =>
    by_cases hk : kv.1 = k
    · rw [aerase, if_pos hk]
      simp only [List.map_cons]
      exact List.Sublist.cons kv.1 (List.Sublist.refl _)
    · rw [aerase, if_neg hk]
      simp only [List.map_cons]
      exact List.Sublist.cons₂ kv.1 ih

theorem alookup_isSome_of_mem {β : Type} {l : List (Str × β)} {k : Str}
    (h : k ∈ l.map Prod.fst) : (alookup l k).isSome = true := by
  induction l with
  | nil => simp at h
  | cons kv t ih =>
    by_cases hk : kv.1 = k
    · simp [alookup, hk]
    · rw [alookup, if_neg hk]
      rcases List.mem_cons.mp h with he | hm
      · exact absurd he.symm hk
      · exact ih hm

theorem length_aerase_of_some {β : Type} {l : List (Str × β)} {k : Str} {v : β}
    (h : alookup l k = some v) : (aerase l k).length + 1 = l.length := by
  induction l with
  | nil => simp [alookup] at h
  | cons kv t ih =>
    by_cases hk : kv.1 = k
    · rw [aerase, if_pos hk]
      simp
    · rw [alookup, if_neg hk] at h
      rw [aerase, if_neg hk]
      simp only [List.length_cons]
      rw [← ih h]

theorem upd_append_of_not_mem {β : Type} (l : List (Str × β)) (k : Str) (v : β)
    (h : k ∉ l.map Prod.fst) : upd l k v = l ++ [(k, v)] := by
  induction l with
  | nil => rfl
  | cons kv t ih =>
    simp only [List.map_cons, List.mem_cons] at h
    push_neg at h
    rw [upd, if_neg (fun he => h.1 he.symm)]
    rw [List.cons_append, ih h.2]

theorem foldl_upd_append {β : Type} (l acc : List (Str × β))
    (hnd : (l.map Prod.fst).Nodup)
    (hdisj : ∀ k ∈ l.map Prod.fst, k ∉ acc.map Prod.fst) :
    l.foldl (fun d kv => upd d kv.1 kv.2) acc = acc ++ l := by
  induction l generalizing acc with
  | nil => simp
  | cons kv t ih =>
    simp only [List.map_cons, List.nodup_cons] at hnd
    have h1 : upd acc kv.1 kv.2 = acc ++ [(kv.1, kv.2)] :=
      upd_append_of_not_mem acc kv.1 kv.2
        (hdisj kv.1 (by rw [List.map_cons]; exact List.mem_cons_self _ _))
    have h2 : ∀ k ∈ t.map Prod.fst, k ∉ (acc ++ [(kv.1, kv.2)]).map Prod.fst := by
      intro k hk
      rw [List.map_append]
      simp only [List.mem_append]
      push_neg
      constructor
      · exact hdisj k (by simp [hk])
      · simp only [List.map_cons, List.map_nil, List.mem_singleton]
        intro he
        exact hnd.1 (he ▸ hk)
    calc (kv :: t).foldl (fun d p => upd d p.1 p.2) acc
        = t.foldl (fun d p => upd d p.1 p.2) (acc ++ [(kv.1, kv.2)]) := by
          rw [List.foldl_cons, h1]
      _ = (acc ++ [(kv.1, kv.2)]) ++ t := ih (acc ++ [(kv.1, kv.2)]) hnd.2 h2
      _ = acc ++ kv :: t := by simp

/-- Deleting a present key and re-appending its binding is invisible to
    lookup when the keys are distinct. -/
theorem alookup_aerase_append {β : Type} (l : List (Str × β)) (k0 : Str) (v : β)
    (hnd : (l.map Prod.fst).Nodup) (h : alookup l k0 = some v) :
    ∀ k, alookup (aerase l k0 ++ [(k0, v)]) k = alookup l k := by
  intro k
  rw [alookup_append]
  by_cases hk : k = k0
  · subst hk
    rw [alookup_aerase_self l k hnd, h, alookup, if_pos rfl]
  · rw [alookup_aerase_ne l k0 k hk]
    cases ha : alookup l k with
    | some w => rfl
    | none =>
      rw [alookup, if_neg (fun he => hk he.symm)]
      rfl

/-
  Behaviour of the header-line matchers on the exact lines the serializer
  emits, assuming the embedded fragments hold no double quote and no newline.
-/

theorem largestBelow_eq_some (f : Nat → Bool) (n p : Nat) (hp : p < n) (hf : f p = true)
    (hmax : ∀ m, p < m → m < n → f m = false) : largestBelow f n = some p := by
  induction n with
  | zero => omega
  | succ n ih =>
    by_cases hn : f n = true
    · have he : p = n := by
        rcases Nat.lt_or_ge p n with h | h
        · rw [hmax n h (Nat.lt_succ_self n)] at hn
          cases hn
        · omega
      rw [largestBelow, if_pos hn, he]
    · rw [largestBelow, if_neg hn]
      have hp' : p < n := by
        rcases Nat.lt_or_ge p n with h | h
        · exact h
        · have he : p = n := by omega
          rw [he] at hf
          exact absurd hf hn
      exact ih hp' (fun m hm1 hm2 => hmax m hm1 (by omega))

theorem lastIdxOf_append_quote (g : Str) (hq : '"' ∉ g) :
    lastIdxOf '"' (g ++ str "\"") = some g.length := by
  induction g with
  | nil => rfl
  | cons c t ih =>
    have hq' : '"' ∉ t := fun h => hq (List.mem_cons_of_mem c h)
    show lastIdxOf '"' (c :: (t ++ str "\"")) = some (t.length + 1)
    rw [lastIdxOf, ih hq']

theorem takeWhile_no_nl (g : Str) (h : '\n' ∉ g) :
    g.takeWhile (fun c => c ≠ '\n') = g := by
  rw [List.takeWhile_eq_self_iff]
  intro x hx
  simp only [ne_eq, decide_eq_true_eq]
  intro he
  exact h (he ▸ hx)

theorem matchGroup1_mk (lit g : Str) (hg : g ≠ []) (hq : '"' ∉ g) (hn : '\n' ∉ g) :
    matchGroup1 lit (lit ++ (g ++ str "\"")) = g := by
  have hnl : '\n' ∉ g ++ str "\"" := by
    simp only [List.mem_append]
    push_neg
    exact ⟨hn, by decide⟩
  have hlen : 1 ≤ g.length := by
    cases g with
    | nil => exact absurd rfl hg
    | cons a as => simp
  simp only [matchGroup1, ipo_append lit (g ++ str "\""), if_true, List.drop_left]
  rw [takeWhile_no_nl _ hnl, lastIdxOf_append_quote g hq]
  show (if 1 ≤ g.length then List.take g.length (g ++ str "\"") else []) = g
  rw [if_pos hlen, List.take_left]

theorem matchGroup1_no (lit line : Str) (h : lit.isPrefixOf line = false) :
    matchGroup1 lit line = [] := by
  unfold matchGroup1
  rw [if_neg (by simp [h])]

theorem ipo_head_ne (a b : Char) (as bs : Str) (h : (a == b) = false) :
    (a :: as).isPrefixOf (b :: bs) = false := by
  rw [List.isPrefixOf_cons₂, h, Bool.false_and]

theorem ipo_using_data (x : Str) :
    (str "using \"").isPrefixOf (str "data \"" ++ x) = false := by
  have e1 : str "using \"" = 'u' :: str "sing \"" := rfl
  have e2 : str "data \"" ++ x = 'd' :: (str "ata \"" ++ x) := rfl
  rw [e1, e2]
  exact ipo_head_ne 'u' 'd' _ _ (by decide)

theorem get_spellparent_data (x : Str) : get_spellparent (str "data \"" ++ x) = [] :=
  matchGroup1_no _ _ (ipo_using_data x)

theorem r_get_right (k X : Str) (j : Nat) : (k ++ X).get? (k.length + j) = X.get? j := by
  rw [List.get?_append_right (Nat.le_add_right _ _)]
  congr 1
  omega

theorem r_drop_right (k X : Str) (j : Nat) : (k ++ X).drop (k.length + j) = X.drop j := by
  rw [← List.drop_drop, List.drop_left]

/-- The double quotes of the tail of a data line sit only at the three
    structural positions when key and value are quote-free. -/
theorem quote_pos (k w : Str) (hkq : '"' ∉ k) (hwq : '"' ∉ w) (m : Nat)
    (hm : (k ++ ('"' :: ' ' :: '"' :: (w ++ str "\""))).get? m = some '"') :
    m = k.length ∨ m = k.length + 2 ∨ m = k.length + 3 + w.length := by
  by_cases h1 : m < k.length
  · rw [List.get?_append h1] at hm
    exact absurd (List.get?_mem hm) hkq
  · push_neg at h1
    obtain ⟨j, hj⟩ : ∃ j, m = k.length + j := ⟨m - k.length, by omega⟩
    subst hj
    rw [r_get_right] at hm
    match j, hm with
    | 0, _ => exact Or.inl (by omega)
    | 1, hm =>
      have hv : ('"' :: ' ' :: '"' :: (w ++ str "\"")).get? 1 = some ' ' := rfl
      rw [hv] at hm
      exact absurd hm (by decide)
    | 2, _ => exact Or.inr (Or.inl (by omega))
    | (j' + 3), hm =>
      have hY : ('"' :: ' ' :: '"' :: (w ++ str "\"")).get? (j' + 3) =
          (w ++ str "\"").get? j' := rfl
      rw [hY] at hm
      by_cases h2 : j' < w.length
      · rw [List.get?_append h2] at hm
        exact absurd (List.get?_mem hm) hwq
      · push_neg at h2
        rw [List.get?_append_right h2] at hm
        cases hj2 : j' - w.length with
        | zero =>
          refine Or.inr (Or.inr ?_)
          omega
        | succ j'' =>
          rw [hj2] at hm
          have : (str "\"").get? (j'' + 1) = none := rfl
          rw [this] at hm
          cases hm

/-- The greedy key cut of the emitted data line is valid at the key length. -/
theorem dataValidAt_at_klen (k w : Str) (hk : k ≠ []) :
    dataValidAt (k ++ ('"' :: ' ' :: '"' :: (w ++ str "\""))) k.length = true := by
  have hlen : 1 ≤ k.length := by
    cases k with
    | nil => exact absurd rfl hk
    | cons a as => simp
  have g0 : (k ++ ('"' :: ' ' :: '"' :: (w ++ str "\""))).get? k.length =
      some '"' := by
    have h := r_get_right k ('"' :: ' ' :: '"' :: (w ++ str "\"")) 0
    rw [Nat.add_zero] at h
    rw [h]
    rfl
  have g1 : (k ++ ('"' :: ' ' :: '"' :: (w ++ str "\""))).get? (k.length + 1) =
      some ' ' := by rw [r_get_right]; rfl
  have g2 : (k ++ ('"' :: ' ' :: '"' :: (w ++ str "\""))).get? (k.length + 2) =
      some '"' := by rw [r_get_right]; rfl
  have g3 : (k ++ ('"' :: ' ' :: '"' :: (w ++ str "\""))).drop (k.length + 3) =
      w ++ str "\"" := by
    have h := r_drop_right k ('"' :: ' ' :: '"' :: (w ++ str "\"")) 3
    rw [h]
    rfl
  have hmem : ('"' : Char) ∈ w ++ str "\"" := by
    simp only [List.mem_append]
    exact Or.inr (by decide)
  simp only [dataValidAt]
  rw [g0, g1, g2, g3]
  simp [hlen, List.contains, List.elem_eq_mem, hmem]

/-- No valid key cut of the emitted data line lies beyond the key length. -/
theorem dataValidAt_gt_klen (k w : Str) (hkq : '"' ∉ k) (hwq : '"' ∉ w) (m : Nat)
    (hm : k.length < m) :
    dataValidAt (k ++ ('"' :: ' ' :: '"' :: (w ++ str "\""))) m = false := by
  rw [Bool.eq_false_iff]
  intro hval
  simp only [dataValidAt, Bool.and_eq_true, decide_eq_true_eq] at hval
  obtain ⟨⟨⟨⟨_, h2⟩, h3⟩, h4⟩, h5⟩ := hval
  rcases quote_pos k w hkq hwq m h2 with e | e | e
  · omega
  · subst e
    have h3' : ('"' :: ' ' :: '"' :: (w ++ str "\"")).get? 3 = some ' ' := by
      rw [show k.length + 2 + 1 = k.length + 3 from rfl, r_get_right] at h3
      exact h3
    cases w with
    | nil =>
      have hv : ('"' :: ' ' :: '"' :: (([] : Str) ++ str "\"")).get? 3 = some '"' := rfl
      rw [hv] at h3'
      exact absurd h3' (by decide)
    | cons c w' =>
      have hc : c = ' ' := by
        have : ('"' :: ' ' :: '"' :: ((c :: w') ++ str "\"")).get? 3 = some c := rfl
        rw [this] at h3'
        cases h3'
        rfl
      subst hc
      have h4' : ('"' :: ' ' :: '"' :: ((' ' :: w') ++ str "\"")).get? 4 = some '"' := by
        rw [show k.length + 2 + 2 = k.length + 4 from rfl, r_get_right] at h4
        exact h4
      cases w' with
      | nil =>
        have h5' : ((k ++ ('"' :: ' ' :: '"' :: (([' ']) ++ str "\"")))).drop
            (k.length + 5) = [] := by
          rw [r_drop_right]
          rfl
        rw [show k.length + 2 + 3 = k.length + 5 from rfl, h5'] at h5
        exact absurd h5 (by decide)
      | cons c2 w'' =>
        have : ('"' :: ' ' :: '"' :: ((' ' :: c2 :: w'') ++ str "\"")).get? 4 = some c2 := rfl
        rw [this] at h4'
        cases h4'
        exact hwq (by simp)
  · subst e
    have h3' : ('"' :: ' ' :: '"' :: (w ++ str "\"")).get? (3 + w.length + 1) = some ' ' := by
      rw [show k.length + 3 + w.length + 1 = k.length + (3 + w.length + 1) by omega,
          r_get_right] at h3
      exact h3
    have hnone : ('"' :: ' ' :: '"' :: (w ++ str "\"")).get? (3 + w.length + 1) = none := by
      rw [List.get?_eq_none]
      have hq1 : (str "\"").length = 1 := rfl
      simp [List.length_append, hq1]
      omega
    rw [hnone] at h3'
    cases h3'

/-- The data-line matcher recovers the exact key and value of an emitted
    data line when both are quote-free and newline-free. -/
theorem get_spelldata_mk (k w : Str) (hk : k ≠ []) (hkq : '"' ∉ k) (hkn : '\n' ∉ k)
    (hwq : '"' ∉ w) (hwn : '\n' ∉ w) :
    get_spelldata (str "data \"" ++ (k ++ (str "\" \"" ++ (w ++ str "\"")))) = [(k, w)] := by
  have hX : k ++ (str "\" \"" ++ (w ++ str "\"")) =
      k ++ ('"' :: ' ' :: '"' :: (w ++ str "\"")) := rfl
  have hdrop : (str "data \"" ++ (k ++ (str "\" \"" ++ (w ++ str "\"")))).drop 6 =
      k ++ (str "\" \"" ++ (w ++ str "\"")) := List.drop_left' rfl
  have hnl : '\n' ∉ k ++ ('"' :: ' ' :: '"' :: (w ++ str "\"")) := by
    simp only [List.mem_append, List.mem_cons]
    push_neg
    exact ⟨hkn, by decide, by decide, by decide, hwn, by decide⟩
  have hrlen : k.length < (k ++ ('"' :: ' ' :: '"' :: (w ++ str "\""))).length := by
    rw [List.length_append]
    simp
  simp only [get_spelldata, ipo_append (str "data \"") _, if_true]
  rw [hdrop, hX, takeWhile_no_nl _ hnl]
  rw [largestBelow_eq_some _ _ k.length hrlen (dataValidAt_at_klen k w hk)
    (fun m hm1 _ => dataValidAt_gt_klen k w hkq hwq m hm1)]
  have hdr : (k ++ ('"' :: ' ' :: '"' :: (w ++ str "\""))).drop (k.length + 3) =
      w ++ str "\"" := by
    have h := r_drop_right k ('"' :: ' ' :: '"' :: (w ++ str "\"")) 3
    rw [h]
    rfl
  show (match lastIdxOf '"'
          ((k ++ ('"' :: ' ' :: '"' :: (w ++ str "\""))).drop (k.length + 3)) with
        | none => ([] : List (Str × Str))
        | some q => [((k ++ ('"' :: ' ' :: '"' :: (w ++ str "\""))).take k.length,
            ((k ++ ('"' :: ' ' :: '"' :: (w ++ str "\""))).drop (k.length + 3)).take q)]) =
      [(k, w)]
  rw [hdr, lastIdxOf_append_quote w hwq]
  show [((k ++ ('"' :: ' ' :: '"' :: (w ++ str "\""))).take k.length,
        (w ++ str "\"").take w.length)] = [(k, w)]
  rw [List.take_left, List.take_left]

/-
  Validity of records for the round trip: names, types, keys and values hold
  no double quote and no newline, the keys are distinct, SpellType is bound,
  and a fourth line exists (a parent or a second data key), which rules out
  the unguarded peek of Spell.load.
-/

/-- A fragment that survives quoting: no double quote and no newline. -/
def okStr (s : Str) : Prop := '"' ∉ s ∧ '\n' ∉ s

/-- A record the serializer and the parser both handle faithfully. -/
def SpellOk (s : Spell) : Prop :=
  s.name ≠ [] ∧ okStr s.name ∧ s.entrytype ≠ [] ∧ okStr s.entrytype ∧ okStr s.parent ∧
  (s.sdata.map Prod.fst).Nodup ∧
  (∀ kv ∈ s.sdata, kv.1 ≠ [] ∧ okStr kv.1 ∧ kv.2.isSome = true ∧ okStr (kv.2.getD [])) ∧
  (alookup s.sdata (str "SpellType")).isSome = true ∧
  (s.parent ≠ [] ∨ 2 ≤ s.sdata.length)

/-- Record equivalence: same name, entry type and parent, and the same
    key-to-value mapping (order left free). -/
def SpellEquiv (a b : Spell) : Prop :=
  a.name = b.name ∧ a.entrytype = b.entrytype ∧ a.parent = b.parent ∧
  ∀ k, alookup a.sdata k = alookup b.sdata k

/-- A library of valid records keyed by their names, with distinct names. -/
def LibraryOk (L : Library) : Prop :=
  (L.map Prod.fst).Nodup ∧ ∀ p ∈ L, p.1 = p.2.name ∧ SpellOk p.2

/-- Library equivalence: records in the same order, with equal names and
    equivalent contents. -/
def LibEquiv (A B : Library) : Prop :=
  List.Forall₂ (fun a b => a.1 = b.1 ∧ SpellEquiv a.2 b.2) A B

theorem aerase_sublist {β : Type} (l : List (Str × β)) (k : Str) :
    (aerase l k).Sublist l := by
  induction l with
  | nil => simp [aerase]
  | cons kv t ih =>
    by_cases hk : kv.1 = k
    · rw [aerase, if_pos hk]
      exact List.Sublist.cons kv (List.Sublist.refl t)
    · rw [aerase, if_neg hk]
      exact List.Sublist.cons₂ kv ih

theorem append_lit_ne_nil (lit x : Str) (h : lit ≠ []) : lit ++ x ≠ [] := by
  cases lit with
  | nil => exact absurd rfl h
  | cons a as => simp

theorem line_nl_free (lit g : Str) (hlit : '\n' ∉ lit) (hn : '\n' ∉ g) :
    '\n' ∉ lit ++ (g ++ str "\"") := by
  simp only [List.mem_append]
  push_neg
  exact ⟨hlit, hn, by decide⟩

/-- The emitted data line regrouped to the right. -/
theorem dataLine_eq (k : Str) (v : Option Str) :
    dataLine k v = str "data \"" ++ (k ++ (str "\" \"" ++ (valStr v ++ str "\""))) := by
  unfold dataLine
  simp [List.append_assoc]

theorem dataLine_nl_free (k : Str) (v : Option Str) (hk : '\n' ∉ k) (hv : '\n' ∉ valStr v) :
    '\n' ∉ dataLine k v := by
  rw [dataLine_eq]
  simp only [List.mem_append]
  push_neg
  exact ⟨by decide, hk, by decide, hv, by decide⟩

theorem okPart_nl (l : Str) (h : '\n' ∉ l) : okPart (str "\n") l := by
  have e : str "\n" = '\n' :: ([] : Str) := rfl
  rw [e]
  exact okPart_of_head_not_mem '\n' [] l h

/-- The SpellType header line rewritten into the general data-line shape. -/
theorem st_line_eq (w : Str) :
    str "data \"SpellType\" \"" ++ (w ++ str "\"") =
      str "data \"" ++ (str "SpellType" ++ (str "\" \"" ++ (w ++ str "\""))) := by
  have h : str "data \"SpellType\" \"" =
      (str "data \"" ++ str "SpellType") ++ str "\" \"" := by decide
  rw [h, List.append_assoc, List.append_assoc]

theorem get_spelldata_dataLine (k : Str) (v : Option Str) (hk : k ≠ []) (hkq : '"' ∉ k)
    (hkn : '\n' ∉ k) (hwq : '"' ∉ valStr v) (hwn : '\n' ∉ valStr v) :
    get_spelldata (dataLine k v) = [(k, valStr v)] := by
  rw [dataLine_eq]
  exact get_spelldata_mk k (valStr v) hk hkq hkn hwq hwn

theorem get_spellparent_dataLine (k : Str) (v : Option Str) :
    get_spellparent (dataLine k v) = [] := by
  rw [dataLine_eq]
  exact get_spellparent_data (k ++ (str "\" \"" ++ (valStr v ++ str "\"")))

theorem valStr_isSome {v : Option Str} (h : v.isSome = true) : some (valStr v) = v := by
  cases v with
  | none => cases h
  | some w => rfl

/-- The folded body of Spell.load over emitted data lines equals the direct
    dictionary fold of the source pairs. -/
theorem foldl_data_lines (d : List (Str × Option Str)) (acc : List (Str × Option Str))
    (hd : ∀ kv ∈ d, kv.1 ≠ [] ∧ '"' ∉ kv.1 ∧ '\n' ∉ kv.1 ∧ '"' ∉ valStr kv.2 ∧
      '\n' ∉ valStr kv.2 ∧ kv.2.isSome = true) :
    (d.map (fun kv => dataLine kv.1 kv.2)).foldl
      (fun d2 line => (get_spelldata line).foldl (fun d3 kv => upd d3 kv.1 (some kv.2)) d2)
      acc =
    d.foldl (fun d2 kv => upd d2 kv.1 kv.2) acc := by
  induction d generalizing acc with
  | nil => simp
  | cons kv t ih =>
    obtain ⟨h1, h2, h3, h4, h5, h6⟩ := hd kv (by simp)
    rw [List.map_cons, List.foldl_cons, List.foldl_cons,
        get_spelldata_dataLine kv.1 kv.2 h1 h2 h3 h4 h5]
    rw [List.foldl_cons, List.foldl_nil, valStr_isSome h6]
    exact ih (upd acc kv.1 kv.2) (fun p hp => hd p (by simp [hp]))

/-- Unfolding of Spell.load on a block with at least four lines. -/
theorem load_eq (l1 l2 l3 peek : Str) (rest2 : List Str) :
    Spell.load (l1 :: l2 :: l3 :: peek :: rest2) =
      (let par := get_spellparent peek
       let body := if par ≠ [] then rest2 else peek :: rest2
       let d0 := body.foldl
         (fun d line => (get_spelldata line).foldl (fun d kv => upd d kv.1 (some kv.2)) d) []
       let d1 := (get_spelldata l3).foldl (fun d kv => upd d kv.1 (some kv.2)) d0
       some { name := get_spellname l1, entrytype := get_entrytype l2,
              typ := get_spelldata l3, parent := par, sdata := d1 }) := rfl

/-- Unfolding of Spell.to_entry when SpellType is bound. -/
theorem to_entry_lines (s : Spell) (v0 : Option Str)
    (hv : alookup s.sdata (str "SpellType") = some v0) :
    s.to_entry = some (interc (str "\n")
      ((if s.parent = [] then
          [str "new entry \"" ++ (s.name ++ str "\""),
           str "type \"" ++ (s.entrytype ++ str "\""),
           str "data \"SpellType\" \"" ++ (valStr v0 ++ str "\"")]
        else
          [str "new entry \"" ++ (s.name ++ str "\""),
           str "type \"" ++ (s.entrytype ++ str "\""),
           str "data \"SpellType\" \"" ++ (valStr v0 ++ str "\""),
           str "using \"" ++ (s.parent ++ str "\"")]) ++
        (aerase s.sdata (str "SpellType")).map (fun kv => dataLine kv.1 kv.2)),
      { s with sdata := aerase s.sdata (str "SpellType") }) := by
  unfold Spell.to_entry
  rw [hv]
  by_cases hpar : s.parent = [] <;>
    simp [hpar, List.dropLast, List.append_assoc]

theorem valStr_eq_getD {v : Option Str} (h : v.isSome = true) : valStr v = v.getD [] := by
  cases v with
  | none => cases h
  | some w => rfl

/-- One valid record: serializing yields a block whose newline split parses
    back to an equivalent record, the block being blank-line free for the
    outer split. -/
theorem roundtrip_spell (s : Spell) (hok : SpellOk s) :
    ∃ e, s.to_entry = some (e, { s with sdata := aerase s.sdata (str "SpellType") }) ∧
      e ≠ [] ∧ okPart (str "\n\n") e ∧
      3 ≤ (pySplit (str "\n") e).length ∧
      ∃ sp, Spell.load (pySplit (str "\n") e) = some sp ∧
        sp.name = s.name ∧ SpellEquiv sp s := by
  obtain ⟨hnm, ⟨hnmq, hnmn⟩, het, ⟨hetq, hetn⟩, ⟨hpq, hpn⟩, hnd, hall, hst, hfourth⟩ := hok
  obtain ⟨v0, hv⟩ := Option.isSome_iff_exists.mp hst
  have hmem0 := alookup_mem hv
  obtain ⟨_, _, hv0s, hv0ok⟩ := hall (str "SpellType", v0) hmem0
  have hweq : valStr v0 = v0.getD [] := valStr_eq_getD hv0s
  have hwq : '"' ∉ valStr v0 := by rw [hweq]; exact hv0ok.1
  have hwn : '\n' ∉ valStr v0 := by rw [hweq]; exact hv0ok.2
  have hw : some (valStr v0) = v0 := valStr_isSome hv0s
  have hdnd : ((aerase s.sdata (str "SpellType")).map Prod.fst).Nodup :=
    List.Nodup.sublist (aerase_map_fst_sublist s.sdata (str "SpellType")) hnd
  have hdall : ∀ kv ∈ aerase s.sdata (str "SpellType"), kv.1 ≠ [] ∧ '"' ∉ kv.1 ∧
      '\n' ∉ kv.1 ∧ '"' ∉ valStr kv.2 ∧ '\n' ∉ valStr kv.2 ∧ kv.2.isSome = true := by
    intro kv hkv
    obtain ⟨h1, h2, h3, h4⟩ :=
      hall kv ((aerase_sublist s.sdata (str "SpellType")).subset hkv)
    have he : valStr kv.2 = kv.2.getD [] := valStr_eq_getD h3
    exact ⟨h1, h2.1, h2.2, by rw [he]; exact h4.1, by rw [he]; exact h4.2, h3⟩
  have hSTd : str "SpellType" ∉ (aerase s.sdata (str "SpellType")).map Prod.fst := by
    intro hm
    have h1 := alookup_isSome_of_mem hm
    rw [alookup_aerase_self s.sdata (str "SpellType") hnd] at h1
    cases h1
  have hl1 : get_spellname (str "new entry \"" ++ (s.name ++ str "\"")) = s.name :=
    matchGroup1_mk (str "new entry \"") s.name hnm hnmq hnmn
  have hl2 : get_entrytype (str "type \"" ++ (s.entrytype ++ str "\"")) = s.entrytype :=
    matchGroup1_mk (str "type \"") s.entrytype het hetq hetn
  have hl3 : get_spelldata (str "data \"SpellType\" \"" ++ (valStr v0 ++ str "\"")) =
      [(str "SpellType", valStr v0)] := by
    rw [st_line_eq]
    exact get_spelldata_mk (str "SpellType") (valStr v0)
      (by decide) (by decide) (by decide) hwq hwn
  have hl1n : '\n' ∉ str "new entry \"" ++ (s.name ++ str "\"") :=
    line_nl_free _ s.name (by decide) hnmn
  have hl2n : '\n' ∉ str "type \"" ++ (s.entrytype ++ str "\"") :=
    line_nl_free _ s.entrytype (by decide) hetn
  have hl3n : '\n' ∉ str "data \"SpellType\" \"" ++ (valStr v0 ++ str "\"") :=
    line_nl_free _ (valStr v0) (by decide) hwn
  have hfold : ∀ body0, body0 = (aerase s.sdata (str "SpellType")).map
        (fun kv => dataLine kv.1 kv.2) →
      body0.foldl (fun d line => (get_spelldata line).foldl
        (fun d kv => upd d kv.1 (some kv.2)) d) [] = aerase s.sdata (str "SpellType") := by
    intro body0 hb
    rw [hb, foldl_data_lines _ [] hdall,
        foldl_upd_append _ [] hdnd (by intro k hk; simp)]
    simp
  have hupd : upd (aerase s.sdata (str "SpellType")) (str "SpellType") (some (valStr v0)) =
      aerase s.sdata (str "SpellType") ++ [(str "SpellType", v0)] := by
    rw [upd_append_of_not_mem _ _ _ hSTd, hw]
  have hequiv : ∀ k, alookup (aerase s.sdata (str "SpellType") ++ [(str "SpellType", v0)]) k =
      alookup s.sdata k := alookup_aerase_append s.sdata (str "SpellType") v0 hnd hv
  by_cases hpar : s.parent = []
  · -- no parent: the fourth line is the first body data line
    have hlen2 : 2 ≤ s.sdata.length := by
      rcases hfourth with h | h
      · exact absurd hpar h
      · exact h
    have hlend := length_aerase_of_some hv
    obtain ⟨kv0, dtl, hd⟩ : ∃ kv0 dtl, aerase s.sdata (str "SpellType") = kv0 :: dtl := by
      cases hde : aerase s.sdata (str "SpellType") with
      | nil => rw [hde] at hlend; simp at hlend; omega
      | cons kv0 dtl => exact ⟨kv0, dtl, rfl⟩
    have hlines : ∀ l ∈ (str "new entry \"" ++ (s.name ++ str "\"")) ::
        (str "type \"" ++ (s.entrytype ++ str "\"")) ::
        (str "data \"SpellType\" \"" ++ (valStr v0 ++ str "\"")) ::
        (aerase s.sdata (str "SpellType")).map (fun kv => dataLine kv.1 kv.2),
        l ≠ [] ∧ '\n' ∉ l := by
      intro l hl
      rcases List.mem_cons.mp hl with he | hl
      · exact he ▸ ⟨append_lit_ne_nil _ _ (by decide), hl1n⟩
      rcases List.mem_cons.mp hl with he | hl
      · exact he ▸ ⟨append_lit_ne_nil _ _ (by decide), hl2n⟩
      rcases List.mem_cons.mp hl with he | hl
      · exact he ▸ ⟨append_lit_ne_nil _ _ (by decide), hl3n⟩
      · obtain ⟨kv, hkv, he⟩ := List.mem_map.mp hl
        obtain ⟨_, _, h3, _, h5, _⟩ := hdall kv hkv
        refine he ▸ ⟨?_, dataLine_nl_free kv.1 kv.2 h3 h5⟩
        rw [dataLine_eq]
        exact append_lit_ne_nil _ _ (by decide)
    refine ⟨_, by rw [to_entry_lines s v0 hv, if_pos hpar], ?_, ?_, ?_, ?_⟩
    · rw [List.cons_append, List.cons_append, List.cons_append, List.nil_append]
      obtain ⟨cs, hcs⟩ := interc_nl_cons _ ((str "type \"" ++ (s.entrytype ++ str "\"")) ::
        (str "data \"SpellType\" \"" ++ (valStr v0 ++ str "\"")) ::
        (aerase s.sdata (str "SpellType")).map (fun kv => dataLine kv.1 kv.2))
      rw [hcs]
      exact append_lit_ne_nil _ _ (append_lit_ne_nil _ _ (by decide))
    · rw [List.cons_append, List.cons_append, List.cons_append, List.nil_append]
      exact okPart_nn_of_lines _ (by simp) hlines
    · rw [List.cons_append, List.cons_append, List.cons_append, List.nil_append,
          pySplit_interc (str "\n") (by decide) _ (by simp)
            (fun p hp => okPart_nl p (hlines p hp).2)]
      simp
    · rw [List.cons_append, List.cons_append, List.cons_append, List.nil_append,
          pySplit_interc (str "\n") (by decide) _ (by simp)
            (fun p hp => okPart_nl p (hlines p hp).2)]
      rw [hd, List.map_cons, load_eq]
      simp only [hl1, hl2, hl3, get_spellparent_dataLine, ne_eq, eq_self_iff_true,
        not_true, ite_false]
      have hbody : List.foldl (fun d line => List.foldl
            (fun d kv => upd d kv.1 (some kv.2)) d (get_spelldata line)) []
          (dataLine kv0.1 kv0.2 :: List.map (fun kv => dataLine kv.1 kv.2) dtl) =
          aerase s.sdata (str "SpellType") := by
        have he : dataLine kv0.1 kv0.2 :: List.map (fun kv => dataLine kv.1 kv.2) dtl =
            List.map (fun kv => dataLine kv.1 kv.2) (aerase s.sdata (str "SpellType")) := by
          rw [hd, List.map_cons]
        rw [he]
        exact hfold _ rfl
      have hD : List.foldl (fun d kv => upd d kv.1 (some kv.2))
          (List.foldl (fun d line => List.foldl
            (fun d kv => upd d kv.1 (some kv.2)) d (get_spelldata line)) []
            (dataLine kv0.1 kv0.2 :: List.map (fun kv => dataLine kv.1 kv.2) dtl))
          [(str "SpellType", valStr v0)] =
          aerase s.sdata (str "SpellType") ++ [(str "SpellType", v0)] := by
        rw [hbody, List.foldl_cons, List.foldl_nil]
        exact hupd
      refine ⟨⟨s.name, s.entrytype, [(str "SpellType", valStr v0)], [],
          aerase s.sdata (str "SpellType") ++ [(str "SpellType", v0)]⟩,
        ?_, rfl, rfl, rfl, hpar.symm, fun k => hequiv k⟩
      exact congrArg (fun x => some (Spell.mk s.name s.entrytype
        [(str "SpellType", valStr v0)] [] x)) hD
  · -- with parent: the fourth line is the using header
    have hlu : get_spellparent (str "using \"" ++ (s.parent ++ str "\"")) = s.parent :=
      matchGroup1_mk (str "using \"") s.parent hpar hpq hpn
    have hlun : '\n' ∉ str "using \"" ++ (s.parent ++ str "\"") :=
      line_nl_free _ s.parent (by decide) hpn
    have hlines : ∀ l ∈ (str "new entry \"" ++ (s.name ++ str "\"")) ::
        (str "type \"" ++ (s.entrytype ++ str "\"")) ::
        (str "data \"SpellType\" \"" ++ (valStr v0 ++ str "\"")) ::
        (str "using \"" ++ (s.parent ++ str "\"")) ::
        (aerase s.sdata (str "SpellType")).map (fun kv => dataLine kv.1 kv.2),
        l ≠ [] ∧ '\n' ∉ l := by
      intro l hl
      rcases List.mem_cons.mp hl with he | hl
      · exact he ▸ ⟨append_lit_ne_nil _ _ (by decide), hl1n⟩
      rcases List.mem_cons.mp hl with he | hl
      · exact he ▸ ⟨append_lit_ne_nil _ _ (by decide), hl2n⟩
      rcases List.mem_cons.mp hl with he | hl
      · exact he ▸ ⟨append_lit_ne_nil _ _ (by decide), hl3n⟩
      rcases List.mem_cons.mp hl with he | hl
      · exact he ▸ ⟨append_lit_ne_nil _ _ (by decide), hlun⟩
      · obtain ⟨kv, hkv, he⟩ := List.mem_map.mp hl
        obtain ⟨_, _, h3, _, h5, _⟩ := hdall kv hkv
        refine he ▸ ⟨?_, dataLine_nl_free kv.1 kv.2 h3 h5⟩
        rw [dataLine_eq]
        exact append_lit_ne_nil _ _ (by decide)
    refine ⟨_, by rw [to_entry_lines s v0 hv, if_neg hpar], ?_, ?_, ?_, ?_⟩
    · rw [List.cons_append, List.cons_append, List.cons_append, List.cons_append,
          List.nil_append]
      obtain ⟨cs, hcs⟩ := interc_nl_cons _ _
      rw [hcs]
      exact append_lit_ne_nil _ _ (append_lit_ne_nil _ _ (by decide))
    · rw [List.cons_append, List.cons_append, List.cons_append, List.cons_append,
          List.nil_append]
      exact okPart_nn_of_lines _ (by simp) hlines
    · rw [List.cons_append, List.cons_append, List.cons_append, List.cons_append,
          List.nil_append,
          pySplit_interc (str "\n") (by decide) _ (by simp)
            (fun p hp => okPart_nl p (hlines p hp).2)]
      simp
    · rw [List.cons_append, List.cons_append, List.cons_append, List.cons_append,
          List.nil_append,
          pySplit_interc (str "\n") (by decide) _ (by simp)
            (fun p hp => okPart_nl p (hlines p hp).2)]
      rw [load_eq]
      simp only [hl1, hl2, hl3, hlu]
      rw [if_pos hpar]
      have hD : List.foldl (fun d kv => upd d kv.1 (some kv.2))
          (List.foldl (fun d line => List.foldl
            (fun d kv => upd d kv.1 (some kv.2)) d (get_spelldata line)) []
            (List.map (fun kv => dataLine kv.1 kv.2) (aerase s.sdata (str "SpellType"))))
          [(str "SpellType", valStr v0)] =
          aerase s.sdata (str "SpellType") ++ [(str "SpellType", v0)] := by
        rw [hfold _ rfl, List.foldl_cons, List.foldl_nil]
        exact hupd
      refine ⟨⟨s.name, s.entrytype, [(str "SpellType", valStr v0)], s.parent,
          aerase s.sdata (str "SpellType") ++ [(str "SpellType", v0)]⟩,
        ?_, rfl, rfl, rfl, rfl, fun k => hequiv k⟩
      exact congrArg (fun x => some (Spell.mk s.name s.entrytype
        [(str "SpellType", valStr v0)] s.parent x)) hD

/-- The parsing fold of load_spells over blocks that each split into at
    least three lines and load successfully. -/
theorem foldl_load_blocks (blocks : List Str) (sps : List Spell)
    (h : List.Forall₂ (fun b sp => 3 ≤ (pySplit (str "\n") b).length ∧
      Spell.load (pySplit (str "\n") b) = some sp) blocks sps) :
    ∀ lib0, blocks.foldl (fun acc block => acc.bind (fun lib =>
        let lines := pySplit (str "\n") block
        if lines.length < 3 then some lib
        else (Spell.load lines).map (fun sp => Library.add lib sp))) (some lib0) =
      some (sps.foldl Library.add lib0) := by
  induction h with
  | nil => intro lib0; rfl
  | @cons b sp bs sps2 hbs htail ih =>
    intro lib0
    rw [List.foldl_cons, List.foldl_cons]
    have hstep : (some lib0).bind (fun lib =>
        let lines := pySplit (str "\n") b
        if lines.length < 3 then some lib
        else (Spell.load lines).map (fun sp => Library.add lib sp)) =
        some (Library.add lib0 sp) := by
      rw [Option.some_bind]
      show (if (pySplit (str "\n") b).length < 3 then some lib0
            else (Spell.load (pySplit (str "\n") b)).map (fun sp => Library.add lib0 sp)) =
        some (Library.add lib0 sp)
      have h3 := hbs.1
      rw [if_neg (by omega), hbs.2]
      rfl
    rw [hstep]
    exact ih (Library.add lib0 sp)

/-- Serializing a library of valid records yields, entry by entry, blocks
    that parse back to equivalent records. -/
theorem core_roundtrip (L : Library) (hok : ∀ p ∈ L, p.1 = p.2.name ∧ SpellOk p.2) :
    ∃ entries sps L_mut, to_entries_core L = some (entries, L_mut) ∧
      (∀ e ∈ entries, e ≠ [] ∧ okPart (str "\n\n") e) ∧
      List.Forall₂ (fun b sp => 3 ≤ (pySplit (str "\n") b).length ∧
        Spell.load (pySplit (str "\n") b) = some sp) entries sps ∧
      List.Forall₂ (fun sp p => sp.name = p.1 ∧ SpellEquiv sp p.2) sps L := by
  induction L with
  | nil => exact ⟨[], [], [], rfl, by simp, List.Forall₂.nil, List.Forall₂.nil⟩
  | cons hd t ih =>
    obtain ⟨hname, hsok⟩ := hok hd (by simp)
    obtain ⟨e, hte, hene, hokp, hlen3, sp, hload, hspname, hequiv⟩ :=
      roundtrip_spell hd.2 hsok
    obtain ⟨es, sps, t', hc, hes, hf1, hf2⟩ := ih (fun p hp => hok p (by simp [hp]))
    refine ⟨e :: es, sp :: sps,
      (hd.1, { hd.2 with sdata := aerase hd.2.sdata (str "SpellType") }) :: t',
      ?_, ?_, ?_, ?_⟩
    · unfold to_entries_core
      rw [hte, hc]
    · intro x hx
      rcases List.mem_cons.mp hx with he | hx
      · exact he ▸ ⟨hene, hokp⟩
      · exact hes x hx
    · exact List.Forall₂.cons ⟨hlen3, hload⟩ hf1
    · exact List.Forall₂.cons ⟨hspname.trans hname.symm, hequiv⟩ hf2

/-- Adding spells with fresh distinct names appends their bindings. -/
theorem foldl_add_map (sps : List Spell) (lib0 : Library)
    (hnd : (sps.map Spell.name).Nodup)
    (hdisj : ∀ n ∈ sps.map Spell.name, n ∉ lib0.map Prod.fst) :
    sps.foldl Library.add lib0 = lib0 ++ sps.map (fun sp => (sp.name, sp)) := by
  have hnd' : ((sps.map (fun sp => (sp.name, sp))).map Prod.fst).Nodup := by
    rw [List.map_map]
    exact hnd
  have hdisj' : ∀ k ∈ (sps.map (fun sp => (sp.name, sp))).map Prod.fst,
      k ∉ lib0.map Prod.fst := by
    rw [List.map_map]
    exact hdisj
  have h := foldl_upd_append (sps.map (fun sp => (sp.name, sp))) lib0 hnd' hdisj'
  rw [List.foldl_map] at h
  exact h

theorem libequiv_of_forall₂ (sps : List Spell) (L : Library)
    (h : List.Forall₂ (fun sp p => sp.name = p.1 ∧ SpellEquiv sp p.2) sps L) :
    LibEquiv (sps.map (fun sp => (sp.name, sp))) L := by
  induction h with
  | nil => exact List.Forall₂.nil
  | cons hh ht ih => exact List.Forall₂.cons ⟨hh.1, hh.2⟩ ih

theorem forall₂_map_name (sps : List Spell) (L : Library)
    (h : List.Forall₂ (fun sp p => sp.name = p.1 ∧ SpellEquiv sp p.2) sps L) :
    sps.map Spell.name = L.map Prod.fst := by
  induction h with
  | nil => rfl
  | cons hh ht ih => simp [hh.1, ih]

/-- C4 amended: round trip of the serializer and the parser on a library of
    valid records each of which has a nonempty parent or a second data field
    (so that the parser's peek at a fourth line cannot fall off the block):
    serialization succeeds and parsing its text gives a library equivalent
    to the library as it was before serialization mutated it. -/
theorem C4_roundtrip (L : Library) (hok : LibraryOk L) :
    ∃ text L_mut L2, Library.to_entries L = some (text, L_mut) ∧
      Library.load_spells text = some L2 ∧ LibEquiv L2 L := by
  obtain ⟨hnd, hall⟩ := hok
  obtain ⟨entries, sps, L_mut, hc, hes, hf1, hf2⟩ := core_roundtrip L hall
  cases L with
  | nil => exact ⟨[], [], [], rfl, by decide, List.Forall₂.nil⟩
  | cons hd t =>
    have hene : entries ≠ [] := by
      intro he
      subst he
      cases hf1
      cases hf2
    have htext : Library.to_entries (hd :: t) =
        some (interc (str "\n\n") entries, L_mut) := by
      simp [Library.to_entries, hc]
    have hsplit : pySplit (str "\n\n") (interc (str "\n\n") entries) = entries :=
      pySplit_interc _ (by decide) entries hene (fun p hp => (hes p hp).2)
    have hload : Library.load_spells (interc (str "\n\n") entries) =
        some (sps.foldl Library.add []) := by
      unfold Library.load_spells
      rw [hsplit]
      exact foldl_load_blocks entries sps hf1 []
    have hnames : sps.map Spell.name = (hd :: t).map Prod.fst :=
      forall₂_map_name sps (hd :: t) hf2
    have hfadd : sps.foldl Library.add [] = sps.map (fun sp => (sp.name, sp)) := by
      have h := foldl_add_map sps [] (by rw [hnames]; exact hnd) (by simp)
      exact h.trans (by simp)
    refine ⟨_, L_mut, _, htext, hload, ?_⟩
    rw [hfadd]
    exact libequiv_of_forall₂ sps (hd :: t) hf2

/-- C4 witness: the round trip evaluated on a concrete one-record library
    whose record has a parent and a body field. -/
theorem C4_roundtrip_witness :
    ∃ text L_mut L2, Library.to_entries [(str "A", spFull)] = some (text, L_mut) ∧
      Library.load_spells text = some L2 ∧ LibEquiv L2 [(str "A", spFull)] :=
  C4_roundtrip [(str "A", spFull)] (by unfold LibraryOk SpellOk okStr; decide)

/-- Parsing a text made of one well-formed block: the outer split yields one
    block, the inner split yields its lines, and the record is loaded. -/
theorem load_spells_single_block (lines : List Str) (hne : lines ≠ [])
    (hl : ∀ l ∈ lines, l ≠ [] ∧ '\n' ∉ l) (h3 : 3 ≤ lines.length) :
    Library.load_spells (interc (str "\n") lines) =
      (Spell.load lines).map (fun sp => Library.add [] sp) := by
  have hok : okPart (str "\n\n") (interc (str "\n") lines) :=
    okPart_nn_of_lines lines hne hl
  have hsplit1 : pySplit (str "\n\n") (interc (str "\n") lines) =
      [interc (str "\n") lines] :=
    pySplit_interc (str "\n\n") (by decide) [interc (str "\n") lines] (by simp)
      (fun q hq => by rw [List.mem_singleton.mp hq]; exact hok)
  have hsplit2 : pySplit (str "\n") (interc (str "\n") lines) = lines :=
    pySplit_interc (str "\n") (by decide) lines hne
      (fun q hq => okPart_nl q (hl q hq).2)
  unfold Library.load_spells
  rw [hsplit1, List.foldl_cons, List.foldl_nil, Option.some_bind]
  simp only [hsplit2]
  rw [if_neg (by omega)]

/-- C6 amended: the parser never inspects the type value of the second
    header line; a block with any well-formed type line, SpellData or not,
    is parsed and its record added with whatever entry type was read. -/
theorem C6_type_ignored (nm t v p : Str)
    (hnm : nm ≠ []) (hnmq : '"' ∉ nm) (hnmn : '\n' ∉ nm)
    (ht : t ≠ []) (htq : '"' ∉ t) (htn : '\n' ∉ t)
    (hvq : '"' ∉ v) (hvn : '\n' ∉ v)
    (hp : p ≠ []) (hpq : '"' ∉ p) (hpn : '\n' ∉ p) :
    Library.load_spells (interc (str "\n")
      [str "new entry \"" ++ (nm ++ str "\""),
       str "type \"" ++ (t ++ str "\""),
       str "data \"SpellType\" \"" ++ (v ++ str "\""),
       str "using \"" ++ (p ++ str "\"")]) =
      some [(nm, { name := nm, entrytype := t, typ := [(str "SpellType", v)],
                   parent := p, sdata := [(str "SpellType", some v)] })] := by
  have hl1 : get_spellname (str "new entry \"" ++ (nm ++ str "\"")) = nm :=
    matchGroup1_mk (str "new entry \"") nm hnm hnmq hnmn
  have hl2 : get_entrytype (str "type \"" ++ (t ++ str "\"")) = t :=
    matchGroup1_mk (str "type \"") t ht htq htn
  have hl3 : get_spelldata (str "data \"SpellType\" \"" ++ (v ++ str "\"")) =
      [(str "SpellType", v)] := by
    rw [st_line_eq]
    exact get_spelldata_mk (str "SpellType") v (by decide) (by decide) (by decide) hvq hvn
  have hl4 : get_spellparent (str "using \"" ++ (p ++ str "\"")) = p :=
    matchGroup1_mk (str "using \"") p hp hpq hpn
  have hlines : ∀ l ∈ [str "new entry \"" ++ (nm ++ str "\""),
      str "type \"" ++ (t ++ str "\""),
      str "data \"SpellType\" \"" ++ (v ++ str "\""),
      str "using \"" ++ (p ++ str "\"")], l ≠ [] ∧ '\n' ∉ l := by
    intro l hl
    rcases List.mem_cons.mp hl with he | hl
    · exact he ▸ ⟨append_lit_ne_nil _ _ (by decide), line_nl_free _ nm (by decide) hnmn⟩
    rcases List.mem_cons.mp hl with he | hl
    · exact he ▸ ⟨append_lit_ne_nil _ _ (by decide), line_nl_free _ t (by decide) htn⟩
    rcases List.mem_cons.mp hl with he | hl
    · exact he ▸ ⟨append_lit_ne_nil _ _ (by decide), line_nl_free _ v (by decide) hvn⟩
    rcases List.mem_cons.mp hl with he | hl
    · exact he ▸ ⟨append_lit_ne_nil _ _ (by decide), line_nl_free _ p (by decide) hpn⟩
    · cases hl
  rw [load_spells_single_block _ (by simp) hlines (by simp)]
  rw [load_eq]
  simp only [hl1, hl2, hl3, hl4]
  rw [if_pos hp]
  rfl

/-- C6 witness: a StatusData block is parsed and added. -/
theorem C6_witness :
    Library.load_spells (interc (str "\n")
      [str "new entry \"" ++ (str "A" ++ str "\""),
       str "type \"" ++ (str "StatusData" ++ str "\""),
       str "data \"SpellType\" \"" ++ (str "T" ++ str "\""),
       str "using \"" ++ (str "B" ++ str "\"")]) =
      some [(str "A", { name := str "A", entrytype := str "StatusData",
                        typ := [(str "SpellType", str "T")], parent := str "B",
                        sdata := [(str "SpellType", some (str "T"))] })] :=
  C6_type_ignored (str "A") (str "StatusData") (str "T") (str "B")
    (by decide) (by decide) (by decide) (by decide) (by decide) (by decide)
    (by decide) (by decide) (by decide) (by decide) (by decide)

/-- When SpellType is present, to_entry succeeds and the spell is left with
    that key deleted from its data. -/
theorem to_entry_some (s : Spell) (v0 : Option Str)
    (h : alookup s.sdata (str "SpellType") = some v0) :
    ∃ e, s.to_entry = some (e, { s with sdata := aerase s.sdata (str "SpellType") }) := by
  unfold Spell.to_entry
  rw [h]
  exact ⟨_, rfl⟩

/-- When SpellType is absent, to_entry raises a KeyError. -/
theorem to_entry_none (s : Spell) (h : alookup s.sdata (str "SpellType") = none) :
    s.to_entry = none := by
  unfold Spell.to_entry
  rw [h]

/-- Serializing a library whose records all carry SpellType under distinct
    data keys succeeds and leaves every record without SpellType. -/
theorem to_entries_core_some (L : Library)
    (h : ∀ p ∈ L, (p.2.sdata.map Prod.fst).Nodup ∧
      (alookup p.2.sdata (str "SpellType")).isSome) :
    ∃ es L', to_entries_core L = some (es, L') ∧
      L'.map Prod.fst = L.map Prod.fst ∧
      ∀ p ∈ L', alookup p.2.sdata (str "SpellType") = none := by
  induction L with
  | nil => exact ⟨[], [], rfl, rfl, by simp⟩
  | cons hd t ih =>
    obtain ⟨hnd, hsome⟩ := h hd (by simp)
    obtain ⟨v0, hv⟩ := Option.isSome_iff_exists.mp hsome
    obtain ⟨e, he⟩ := to_entry_some hd.2 v0 hv
    obtain ⟨es, L', hc, hmap, hall⟩ := ih (fun p hp => h p (by simp [hp]))
    refine ⟨e :: es, (hd.1, { hd.2 with sdata := aerase hd.2.sdata (str "SpellType") }) :: L',
      ?_, by simp [hmap], ?_⟩
    · unfold to_entries_core
      rw [he, hc]
    · intro p hp
      rcases List.mem_cons.mp hp with hp | hp
      · subst hp
        exact alookup_aerase_self hd.2.sdata (str "SpellType") hnd
      · exact hall p hp

/-- C9: serializing is not side-effect-free: one successful to_entries call
    strips SpellType from every record of the library, and a second call on
    the mutated library raises a KeyError. -/
theorem C9_serializer_mutates (L : Library) (hne : L ≠ [])
    (h : ∀ p ∈ L, (p.2.sdata.map Prod.fst).Nodup ∧
      (alookup p.2.sdata (str "SpellType")).isSome) :
    ∃ t L', Library.to_entries L = some (t, L') ∧
      (∀ p ∈ L', alookup p.2.sdata (str "SpellType") = none) ∧
      Library.to_entries L' = none := by
  obtain ⟨es, L', hc, hmap, hall⟩ := to_entries_core_some L h
  refine ⟨interc (str "\n\n") es, L', by simp [Library.to_entries, hc], hall, ?_⟩
  cases hL' : L' with
  | nil =>
    rw [hL'] at hmap
    cases L with
    | nil => exact absurd rfl hne
    | cons q t => simp at hmap
  | cons q t' =>
    have hq : alookup q.2.sdata (str "SpellType") = none := by
      apply hall
      rw [hL']
      simp
    have : to_entries_core (q :: t') = none := by
      unfold to_entries_core
      rw [to_entry_none q.2 hq]
    simp [Library.to_entries, this]

/-- C9 witness: the mutation evaluated on a concrete one-record library. -/
theorem C9_witness :
    ∃ t L', Library.to_entries [(str "A", spFull)] = some (t, L') ∧
      (∀ p ∈ L', alookup p.2.sdata (str "SpellType") = none) ∧
      Library.to_entries L' = none :=
  C9_serializer_mutates [(str "A", spFull)] (by decide) (by decide)

/-- C4: serializing the one-record library whose record is minimal but valid
    (SpellType present, no parent, no further field) succeeds, yet parsing
    the produced text fails with the unguarded peek of Spell.load, so the
    round trip does not return an equivalent library. -/
theorem C4_roundtrip_counterexample :
    Library.to_entries [(str "A", spMin)] =
      some (str "new entry \"A\"\ntype \"SpellData\"\ndata \"SpellType\" \"T\"",
            [(str "A", { spMin with sdata := [] })]) ∧
    Library.load_spells (str "new entry \"A\"\ntype \"SpellData\"\ndata \"SpellType\" \"T\"") =
      none := by
  decide

/-- C10: two Library() constructions with no argument share the one default
    dict of the def statement: adding the record A through the first library
    makes it visible through the second, refuting independence. -/
theorem C10_shared_default_eval :
    readDict (Library.addRef { defaultDict := [], heap := [] } Library.newDefault spPlain)
        Library.newDefault = [(str "A", spPlain)] ∧
    readDict { defaultDict := [], heap := [] } Library.newDefault = [] := by
  decide

end Metamagic
